import Mathlib

/-!
Shallow embedding of the cartpe product-scraper core, written from the
repository's Python source, together with theorems settling the frozen
claims about it.

Conventions of the embedding:
* BeautifulSoup element access is modelled structurally: a product card is
  the record of the pieces the source selects from it (first matching
  anchor, the h6 elements in document order, the id-carrying button, the
  image, the size badge), with `get_text(strip=True)` results stored as the
  already-stripped text.
* HTTP traffic is modelled as a function from the request's pagination
  parameter to the response the server gives for it; a `requests`-level
  exception (timeout, connection error) is one constructor of the response
  type.
* Machine floats only ever hold values parsed from digit strings with the
  thousands separators removed, so prices are carried as `Nat`; the
  `ValueError` that `float` raises on an empty string is modelled as
  `Option.none`.
* Python `while True` loops become fuel-indexed recursion; all claims are
  stated so that exhausting fuel never makes them vacuously true in an
  interesting case.
-/

/-! ## HTML fragments as the source selects them (product_scraper.py) -/

/-- An `h6` element of a product card: its stripped text and its class list. -/
structure H6 where
  text : String
  classes : List String
deriving DecidableEq

/-- A product card (`div.col-lg-4.col-md-6.col-6`) as the pieces
`_extract_product_details` selects from it. -/
structure Card where
  /-- `element.select_one('a[href*=".html"]')`, its stripped `href`. -/
  linkHref : Option String
  /-- All `h6` descendants in document order (`element.select("h6")`);
  `select_one("h6")` is the head of this list. -/
  h6s : List H6
  /-- `element.select_one("button[data-product_id]")`: the `data-product_id`
  attribute (stripped) and the button's stripped text. -/
  button : Option (String × String)
  /-- `element.select_one("img.img-fluid")`, its stripped `src`. -/
  imgSrc : Option String
  /-- `element.select_one("label.badge.badge-primary")`, its stripped text. -/
  sizeText : Option String
deriving DecidableEq

/-- The product dictionary `_extract_product_details` builds. -/
structure Product where
  store_id : Nat
  category_id : Nat
  product_id : String
  product_name : String
  product_url : String
  image_url : String
  current_price : Option Nat
  original_price : Option Nat
  size : String
  stock_status : String
deriving DecidableEq

/-! ## Price text parsing (`re.search(r"[\d,]+", ...)` then `float`) -/

/-- A character matched by the price regex's character class `[\d,]`. -/
def isDigitComma (c : Char) : Bool :=
  c.isDigit || c == ','

/-- `re.search(r"[\d,]+", text)`: the first maximal run of digits/commas,
or `none` when the text has no digit and no comma. -/
def digitCommaRun : List Char → Option (List Char)
  | [] => none
  | c :: cs =>
    if isDigitComma c then some (c :: cs.takeWhile isDigitComma)
    else digitCommaRun cs

/-- Decimal value of a digit string. -/
def digitsToNat (l : List Char) : Nat :=
  l.foldl (fun a c => a * 10 + (c.toNat - '0'.toNat)) 0

/-- `float(match.group().replace(",", ""))`: strip the commas, then convert;
an all-comma match leaves the empty string, on which `float` raises
`ValueError`, modelled as `none`. -/
def parsePriceTok (tok : List Char) : Option Nat :=
  let ds := tok.filter (fun c => c ≠ ',')
  if ds.isEmpty then none else some (digitsToNat ds)

/-- One step of the price loop over the card's `h6` elements.  The state is
`none` once a `ValueError` has been raised (it aborts the whole card), else
`some (current_price, original_price)`. -/
def priceStep (st : Option (Option Nat × Option Nat)) (h : H6) :
    Option (Option Nat × Option Nat) :=
  match st with
  | none => none
  | some (c, o) =>
    if "l-through" ∉ h.classes then
      match digitCommaRun h.text.data with
      | some tok =>
        match c with
        | none =>
          match parsePriceTok tok with
          | none => none
          | some v => some (some v, o)
        | some _ => some (c, o)
      | none => some (c, o)
    else
      match digitCommaRun h.text.data with
      | some tok =>
        match parsePriceTok tok with
        | none => none
        | some v => some (c, some v)
      | none => some (c, o)

/-- Python `str.lower()`, character by character (the texts at hand are
ASCII). -/
def pyLower (s : String) : String :=
  String.mk (s.data.map Char.toLower)

/-- `button_text.lower() == "sold out"` decides the stock status. -/
def stockStatusOf (buttonText : String) : String :=
  if pyLower buttonText = "sold out" then "out_of_stock" else "in_stock"

/-- `ProductScraper._extract_product_details`: `none` models both the
explicit `return None`s (missing link / name / id button) and the
`except`-clause `return None` (the price `ValueError`). -/
def extractProductDetails (card : Card) (store_id category_id : Nat) :
    Option Product :=
  match card.linkHref with
  | none => none
  | some url =>
    match card.h6s.head? with
    | none => none
    | some nameH6 =>
      match card.button with
      | none => none
      | some (pid, btext) =>
        match card.h6s.foldl priceStep (some (none, none)) with
        | none => none
        | some (curr, orig) =>
          some
            { store_id := store_id
              category_id := category_id
              product_id := pid
              product_name := nameH6.text
              product_url := url
              image_url := card.imgSrc.getD ""
              current_price := curr
              original_price := orig
              size := card.sizeText.getD ""
              stock_status := stockStatusOf btext }

/-- `ProductScraper._parse_products_html`: parse every card, skipping the
ones whose extraction returns nothing or raises. -/
def parseProductsHtml (cards : List Card) (store_id category_id : Nat) :
    List Product :=
  cards.filterMap (fun c => extractProductDetails c store_id category_id)

/-! ## The pagination loop (`ProductScraper.extract_products`) -/

/-- The server's answer to one products-page POST, already parsed down to
the card level: a status code with the page's product cards, or a
`requests.RequestException` (timeout, connection error). -/
inductive Resp where
  | page (status : Nat) (cards : List Card)
  | netError
deriving DecidableEq

/-- How one `extract_products` call ends. -/
inductive ExtractOutcome where
  | ok (products : List Product)
  | tokenExpired
  | outOfFuel
deriving DecidableEq

/-- `requests.Response.raise_for_status` raises for 4xx and 5xx codes. -/
def raisesForStatus (status : Nat) : Bool :=
  decide (400 ≤ status ∧ status < 600)

/-- The body of `extract_products`' `while True` loop, keeping the list of
offsets actually sent.  `pages` maps the request's `getresult` offset to the
server's response; the outcome is `.ok` of the accumulated products on a
normal or transient-failure exit, `.tokenExpired` when a 403 response raises
`TokenExpiredException` to the caller. -/
def extractGo (pages : Nat → Resp) (store_id category_id : Nat) :
    Nat → List Product → Nat → List Nat × ExtractOutcome
  | _, _, 0 => ([], .outOfFuel)
  | offset, acc, fuel + 1 =>
    match pages offset with
    | .netError => ([offset], .ok acc)
    | .page status cards =>
      if status = 403 then ([offset], .tokenExpired)
      else if raisesForStatus status then ([offset], .ok acc)
      else
        let products := parseProductsHtml cards store_id category_id
        if products.isEmpty then ([offset], .ok acc)
        else
          let rest := extractGo pages store_id category_id (offset + 12)
            (acc ++ products) fuel
          (offset :: rest.1, rest.2)

/-- `ProductScraper.extract_products`: start at offset 0 with nothing
accumulated. -/
def extract_products (pages : Nat → Resp) (store_id category_id fuel : Nat) :
    List Nat × ExtractOutcome :=
  extractGo pages store_id category_id 0 [] fuel

/-- The products the page at offset `12 * i` contributes. -/
def pageProductsAt (pages : Nat → Resp) (store_id category_id offset : Nat) :
    List Product :=
  match pages offset with
  | .page _ cards => parseProductsHtml cards store_id category_id
  | .netError => []

/-! ## The store worker (`main.py`, `scrape_store_products`) -/

/-- What one `scraper.extract_products(store_data, category)` call looks
like from the worker: a product list, the `TokenExpiredException`, or any
other exception (the worker's per-category `except Exception` arm). -/
inductive XR where
  | ok (products : List Product)
  | tokenExpired
  | error
deriving DecidableEq

/-- The worker's environment: the store's data and the behaviour of its
collaborators.  `extract` gives the outcome of an extraction attempt as a
function of the token currently in `store_data["web_token"]` and the
category; `refresh` gives the result of the n-th
`TokenScraper.extract_token` call of this run. -/
structure WorkerEnv where
  store_id : Nat
  web_token : String
  categories : List Nat
  extract : String → Nat → XR
  refresh : Nat → Option String

/-- The observable outcome of one store run: the returned product count and
success flag, plus the traces of extraction calls made (token used,
category), batches handed to `ProductService.bulk_upsert_products`, and
tokens persisted through `StoreService.update_store_token`. -/
structure WorkerTrace where
  count : Nat
  success : Bool
  calls : List (String × Nat)
  persisted : List (List Product)
  tokenUpdates : List String
deriving DecidableEq

/-- The category loop of `scrape_store_products`.  An exception raised by
the retry inside the `except TokenExpiredException` arm is not caught by
that arm's own `try` and falls through to the function's outer handler,
which returns `(store_id, store_name, 0, False)`; a failed token refresh
executes `break`, after which the function's normal return
`(store_id, store_name, total_products, True)` runs. -/
def workerGo (env : WorkerEnv) :
    List Nat → String → Nat → Nat → List (String × Nat) →
    List (List Product) → List String → WorkerTrace
  | [], _, _, total, calls, pers, tu => ⟨total, true, calls, pers, tu⟩
  | c :: rest, tok, r, total, calls, pers, tu =>
    match env.extract tok c with
    | .ok ps =>
      if ps.isEmpty then
        workerGo env rest tok r total (calls ++ [(tok, c)]) pers tu
      else
        workerGo env rest tok r (total + ps.length)
          (calls ++ [(tok, c)]) (pers ++ [ps]) tu
    | .error => workerGo env rest tok r total (calls ++ [(tok, c)]) pers tu
    | .tokenExpired =>
      match env.refresh r with
      | none => ⟨total, true, calls ++ [(tok, c)], pers, tu⟩
      | some t' =>
        match env.extract t' c with
        | .ok ps =>
          if ps.isEmpty then
            workerGo env rest t' (r + 1) total
              (calls ++ [(tok, c), (t', c)]) pers (tu ++ [t'])
          else
            workerGo env rest t' (r + 1) (total + ps.length)
              (calls ++ [(tok, c), (t', c)]) (pers ++ [ps]) (tu ++ [t'])
        | .tokenExpired =>
          ⟨0, false, calls ++ [(tok, c), (t', c)], pers, tu ++ [t']⟩
        | .error =>
          ⟨0, false, calls ++ [(tok, c), (t', c)], pers, tu ++ [t']⟩

/-- `scrape_store_products`: empty category list returns
`(store_id, store_name, 0, False)` at once, otherwise the category loop
runs with the store's stored token. -/
def scrape_store_products (env : WorkerEnv) : WorkerTrace :=
  if env.categories.isEmpty then ⟨0, false, [], [], []⟩
  else workerGo env env.categories env.web_token 0 0 [] [] []

/-! ## The token scraper (`token_scraper.py`, `TokenScraper.extract_token`)

The source searches the homepage body with
`re.search(r'var\s+web_token\s*=\s*["\x27]([a-f0-9]+)["\x27]', text,
re.IGNORECASE)`.  Every literal that follows one of the pattern's
greedy repetitions lies outside that repetition's character class, so the
regex engine's backtracking never shrinks a repetition: matching each
repetition maximally is exact, and the matcher below does just that. -/

/-- Python's `\s` on ASCII text. -/
def pyWS (c : Char) : Bool :=
  c = ' ' || c = '\t' || c = '\n' || c = '\r' || c = '\x0b' || c = '\x0c'

/-- A character of the class `[a-f0-9]` under `re.IGNORECASE`. -/
def isHexIC (c : Char) : Bool :=
  c.isDigit || ('a' ≤ c && c ≤ 'f') || ('A' ≤ c && c ≤ 'F')

/-- A character of the class `["\x27]` (double or single quote). -/
def isQuote (c : Char) : Bool :=
  c = '"' || c = '\x27'

/-- Case-insensitive literal matching: consume `lit` (given lowercase) from
the head of `s`, returning the rest. -/
def matchLit : List Char → List Char → Option (List Char)
  | [], s => some s
  | _ :: _, [] => none
  | l :: ls, c :: cs => if c.toLower = l.toLower then matchLit ls cs else none

/-- Try to match the token pattern at the head of `s`; on success return
the capture group (the hex digits). -/
def matchTokenAt (s : List Char) : Option (List Char) :=
  match matchLit "var".data s with
  | none => none
  | some s1 =>
    match s1 with
    | [] => none
    | c :: rest =>
      if pyWS c then
        match matchLit "web_token".data (rest.dropWhile pyWS) with
        | none => none
        | some s3 =>
          match s3.dropWhile pyWS with
          | [] => none
          | e :: s5 =>
            if e = '=' then
              match s5.dropWhile pyWS with
              | [] => none
              | q :: s7 =>
                if isQuote q then
                  match s7.takeWhile isHexIC, s7.dropWhile isHexIC with
                  | [], _ => none
                  | _, [] => none
                  | tok, q2 :: _ => if isQuote q2 then some tok else none
                else none
            else none
      else none

/-- `re.search`: try the pattern at each position, left to right. -/
def searchToken : List Char → Option (List Char)
  | [] => none
  | c :: cs =>
    match matchTokenAt (c :: cs) with
    | some tok => some tok
    | none => searchToken cs

/-- The homepage GET as the token scraper sees it: a response, or a
`requests.RequestException`. -/
inductive HttpResult where
  | response (status : Nat) (body : String)
  | requestError
deriving DecidableEq

/-- `TokenScraper.extract_token`: a request failure or an error status
(`raise_for_status`) is caught and yields `None`; otherwise the first
regex match's capture group is returned, or `None` when there is none. -/
def extract_token (r : HttpResult) : Option String :=
  match r with
  | .requestError => none
  | .response status body =>
    if raisesForStatus status then none
    else
      match searchToken body.data with
      | some tok => some (String.mk tok)
      | none => none

/-! ## The WooCommerce category scraper
(`scrapers/woocommerce/category_scraper.py`)

`html.unescape` is an external library call; the extractor is parametric
over it.  The `category_filter` field is carried as its JSON-decoded value
(`json.loads` of the stored string, or the value itself when already a
list); Python's truthiness test `if category_filter:` makes an empty or
absent value mean "no filter".  (When the column holds the literal string
of an empty array, `_get_category_filter` instead returns an empty set,
which is itself falsy at the use site `if category_filter and ...`, so the
kept categories are the same either way.) -/

/-- One entry of the REST categories JSON. -/
structure CatEntry where
  id : Nat
  name : String
  slug : String
deriving DecidableEq

/-- The category dictionary the scraper builds. -/
structure CategoryRow where
  store_id : Nat
  external_category_id : String
  category_name : String
  category_slug : String
deriving DecidableEq

/-- A store as the WooCommerce category scraper reads it. -/
structure WooStore where
  store_id : Nat
  category_filter : Option (List String)
deriving DecidableEq

/-- `CategoryScraper._get_category_filter`: `None` when the field is
absent or falsy, otherwise the decoded set of names. -/
def getCategoryFilter (s : WooStore) : Option (List String) :=
  match s.category_filter with
  | none => none
  | some l => if l.isEmpty then none else some l

/-- The server's answer to one categories-page GET: the decoded JSON list,
or a `requests.RequestException` / decode failure. -/
inductive CatResp where
  | page (entries : List CatEntry)
  | netError
deriving DecidableEq

/-- The dictionary appended for one kept JSON entry. -/
def mkCategoryRow (unescape : String → String) (store_id : Nat)
    (c : CatEntry) : CategoryRow :=
  { store_id := store_id
    external_category_id := toString c.id
    category_name := unescape c.name
    category_slug := c.slug }

/-- The guard `if category_filter and cat_name not in category_filter:
continue` — `true` when the entry is skipped. -/
def skipsEntry (filter : Option (List String)) (decodedName : String) :
    Bool :=
  match filter with
  | none => false
  | some f => !f.isEmpty && !f.contains decodedName

/-- The `while True` loop of `CategoryScraper.extract_categories`, keeping
the list of page numbers requested.  `responses` maps the `page` query
parameter to the server's response; `per_page` is fixed at 100; a short
page ends the loop normally and a network error ends it with whatever was
accumulated. -/
def catGo (unescape : String → String) (responses : Nat → CatResp)
    (store_id : Nat) (filter : Option (List String)) :
    Nat → List CategoryRow → Nat → List Nat × List CategoryRow
  | _, acc, 0 => ([], acc)
  | page, acc, fuel + 1 =>
    match responses page with
    | .netError => ([page], acc)
    | .page data =>
      if data.isEmpty then ([page], acc)
      else
        let acc' := acc ++ data.filterMap (fun c =>
          if skipsEntry filter (unescape c.name) then none
          else some (mkCategoryRow unescape store_id c))
        if data.length < 100 then ([page], acc')
        else
          let rest := catGo unescape responses store_id filter (page + 1)
            acc' fuel
          (page :: rest.1, rest.2)

/-- `CategoryScraper.extract_categories`: pages start at 1 with nothing
accumulated. -/
def extract_categories (unescape : String → String)
    (responses : Nat → CatResp) (store : WooStore) (fuel : Nat) :
    List Nat × List CategoryRow :=
  catGo unescape responses store.store_id (getCategoryFilter store) 1 [] fuel

/-- The JSON entries the page numbered `p` contributes. -/
def catEntriesAt (responses : Nat → CatResp) (p : Nat) : List CatEntry :=
  match responses p with
  | .page data => data
  | .netError => []

/-! ## The product upsert (`services/database_service.py`,
`ProductService.bulk_upsert_products`)

The SQL is `INSERT INTO products (...) VALUES (...) ON DUPLICATE KEY UPDATE
category_id = VALUES(category_id), ..., is_active = TRUE,
last_synced_at = VALUES(last_synced_at), updated_at = VALUES(updated_at)`,
executed over the batch row by row with one `datetime.now()` shared by the
whole call. -/

/-- A row of the `products` table. -/
structure ProductRow where
  store_id : Nat
  category_id : Nat
  product_id : String
  product_name : String
  product_url : String
  image_url : String
  current_price : Option Nat
  original_price : Option Nat
  size : String
  stock_status : String
  is_active : Bool
  last_synced_at : Nat
  created_at : Nat
  updated_at : Nat
deriving DecidableEq

/-- Modelled from the spec: the `products` table's unique key, absent from
the sources (no schema file is in the repository) — the spec states the
upsert "is keyed on (`store_id`, `product_id`)". -/
def rowKey (r : ProductRow) : Nat × String :=
  (r.store_id, r.product_id)

/-- The key of an incoming product dictionary. -/
def prodKey (p : Product) : Nat × String :=
  (p.store_id, p.product_id)

/-- The `ON DUPLICATE KEY UPDATE` assignment list applied to the existing
row: every inserted column except `created_at` is refreshed, and
`is_active` is set to literal `TRUE`. -/
def applyDupUpdate (r : ProductRow) (p : Product) (now : Nat) : ProductRow :=
  { r with
    category_id := p.category_id
    product_name := p.product_name
    product_url := p.product_url
    image_url := p.image_url
    current_price := p.current_price
    original_price := p.original_price
    size := p.size
    stock_status := p.stock_status
    is_active := true
    last_synced_at := now
    updated_at := now }

/-- The row inserted for a fresh key: `is_active` TRUE, all three
timestamps the call's shared `now`. -/
def insertRow (p : Product) (now : Nat) : ProductRow :=
  { store_id := p.store_id
    category_id := p.category_id
    product_id := p.product_id
    product_name := p.product_name
    product_url := p.product_url
    image_url := p.image_url
    current_price := p.current_price
    original_price := p.original_price
    size := p.size
    stock_status := p.stock_status
    is_active := true
    last_synced_at := now
    created_at := now
    updated_at := now }

/-- One tuple of the batch under MySQL's `INSERT ... ON DUPLICATE KEY
UPDATE`: update the row holding the tuple's unique key if there is one
(under the key constraint there is at most one), else append a new row. -/
def upsertOne : List ProductRow → Product → Nat → List ProductRow
  | [], p, now => [insertRow p now]
  | r :: rs, p, now =>
    if rowKey r = prodKey p then applyDupUpdate r p now :: rs
    else r :: upsertOne rs p now

/-- `ProductService.bulk_upsert_products` over a table state: the batch's
tuples are applied in order with the one shared `now`; an empty batch
leaves the table untouched (`if not products: return 0`). -/
def bulk_upsert_products (table : List ProductRow) (products : List Product)
    (now : Nat) : List ProductRow :=
  products.foldl (fun t p => upsertOne t p now) table

/-- The keys currently in the table. -/
def tableKeys (t : List ProductRow) : List (Nat × String) :=
  t.map rowKey

/-- Look a key up in the table. -/
def findRow (t : List ProductRow) (k : Nat × String) : Option ProductRow :=
  t.find? (fun r => decide (rowKey r = k))

/-- Everything of a row except its key and `created_at`: the fields every
sighting refreshes. -/
def rowView (r : ProductRow) :=
  (r.category_id, r.product_name, r.product_url, r.image_url,
   r.current_price, r.original_price, r.size, r.stock_status,
   r.is_active, r.last_synced_at, r.updated_at)

/-- The view a sighting of `p` at time `now` writes, on either branch. -/
def viewOfProd (p : Product) (now : Nat) :=
  (p.category_id, p.product_name, p.product_url, p.image_url,
   p.current_price, p.original_price, p.size, p.stock_status,
   true, now, now)

/-- The last element of the batch carrying key `k`, which is the one whose
values the upsert leaves in the table. -/
def lastMatch (k : Nat × String) : List Product → Option Product
  | [] => none
  | p :: ps =>
    match lastMatch k ps with
    | some q => some q
    | none => if prodKey p = k then some p else none

/-! ## Lemmas about the pagination loop -/

theorem extractGo_zero (pages : Nat → Resp) (sid cid off : Nat)
    (acc : List Product) :
    extractGo pages sid cid off acc 0 = ([], .outOfFuel) := rfl

/-- The offsets a run sends form an arithmetic progression with step 12
from the starting offset. -/
theorem extractGo_fst_shape (pages : Nat → Resp) (sid cid : Nat) :
    ∀ fuel off acc, ∃ n, (extractGo pages sid cid off acc fuel).1
      = (List.range n).map (fun i => off + 12 * i) := by
  intro fuel
  induction fuel with
  | zero => intro off acc; exact ⟨0, rfl⟩
  | succ fuel ih =>
    intro off acc
    cases hp : pages off with
    | netError =>
      refine ⟨1, ?_⟩
      simp [extractGo, hp, List.range_succ]
    | page status cards =>
      by_cases h403 : status = 403
      · exact ⟨1, by simp [extractGo, hp, h403, List.range_succ]⟩
      · by_cases hrs : raisesForStatus status = true
        · exact ⟨1, by simp [extractGo, hp, h403, hrs, List.range_succ]⟩
        · by_cases hmt : (parseProductsHtml cards sid cid).isEmpty = true
          · exact ⟨1, by simp [extractGo, hp, h403, hrs, hmt, List.range_succ]⟩
          · obtain ⟨n, hn⟩ :=
              ih (off + 12) (acc ++ parseProductsHtml cards sid cid)
            refine ⟨n + 1, ?_⟩
            simp only [extractGo, hp, h403, hrs, hmt, if_false,
              Bool.false_eq_true, ite_false]
            rw [hn, List.range_succ_eq_map, List.map_cons, List.map_map]
            have harith : ((fun i => off + 12 * i) ∘ Nat.succ)
                = fun i => off + 12 + 12 * i := by
              funext i
              simp [Function.comp, Nat.mul_succ]
              ring
            rw [harith]
            simp

/-- A further page request is issued only after a response that was a
non-403, non-error page whose body parsed to a non-empty product list. -/
theorem extractGo_continues (pages : Nat → Resp) (sid cid : Nat) :
    ∀ fuel off acc i,
      i + 1 < (extractGo pages sid cid off acc fuel).1.length →
      ∃ status cards, pages (off + 12 * i) = .page status cards ∧
        status ≠ 403 ∧ raisesForStatus status = false ∧
        (parseProductsHtml cards sid cid).isEmpty = false := by
  intro fuel
  induction fuel with
  | zero => intro off acc i h; simp [extractGo] at h
  | succ fuel ih =>
    intro off acc i h
    cases hp : pages off with
    | netError => simp [extractGo, hp] at h
    | page status cards =>
      by_cases h403 : status = 403
      · simp [extractGo, hp, h403] at h
      · by_cases hrs : raisesForStatus status = true
        · simp [extractGo, hp, h403, hrs] at h
        · by_cases hmt : (parseProductsHtml cards sid cid).isEmpty = true
          · simp [extractGo, hp, h403, hrs, hmt] at h
          · cases i with
            | zero =>
              refine ⟨status, cards, ?_, h403, ?_, ?_⟩
              · simpa using hp
              · simpa using hrs
              · simpa using hmt
            | succ j =>
              have h' : j + 1 <
                  (extractGo pages sid cid (off + 12)
                    (acc ++ parseProductsHtml cards sid cid) fuel).1.length := by
                simp only [extractGo, hp, h403, hrs, hmt, if_false,
                  Bool.false_eq_true, ite_false] at h
                simpa using h
              obtain ⟨s', cs', h1, h2, h3, h4⟩ :=
                ih (off + 12) (acc ++ parseProductsHtml cards sid cid) j h'
              refine ⟨s', cs', ?_, h2, h3, h4⟩
              have : off + 12 * (j + 1) = off + 12 + 12 * j := by ring
              rw [this]
              exact h1

/-- A run that ends in `.ok` made at least one request (only fuel
exhaustion produces an empty request list). -/
theorem extractGo_ok_len_pos (pages : Nat → Resp) (sid cid : Nat) :
    ∀ fuel off acc l, (extractGo pages sid cid off acc fuel).2 = .ok l →
      0 < (extractGo pages sid cid off acc fuel).1.length := by
  intro fuel off acc l h
  cases fuel with
  | zero => simp [extractGo] at h
  | succ fuel =>
    cases hp : pages off with
    | netError => simp [extractGo, hp]
    | page status cards =>
      by_cases h403 : status = 403
      · simp [extractGo, hp, h403]
      · by_cases hrs : raisesForStatus status = true
        · simp [extractGo, hp, h403, hrs]
        · by_cases hmt : (parseProductsHtml cards sid cid).isEmpty = true
          · simp [extractGo, hp, h403, hrs, hmt]
          · simp [extractGo, hp, h403, hrs, hmt]

/-- When the loop exits normally (including on a transient network
failure), it returns the starting accumulator followed by the parses of
every fully consumed page — one page per request except the final one. -/
theorem extractGo_ok_payload (pages : Nat → Resp) (sid cid : Nat) :
    ∀ fuel off acc l, (extractGo pages sid cid off acc fuel).2 = .ok l →
      l = acc ++
        ((List.range ((extractGo pages sid cid off acc fuel).1.length - 1)).map
          (fun i => pageProductsAt pages sid cid (off + 12 * i))).flatten := by
  intro fuel
  induction fuel with
  | zero => intro off acc l h; simp [extractGo] at h
  | succ fuel ih =>
    intro off acc l h
    cases hp : pages off with
    | netError =>
      simp only [extractGo, hp] at h ⊢
      simp only [ExtractOutcome.ok.injEq] at h
      simp [← h]
    | page status cards =>
      by_cases h403 : status = 403
      · simp [extractGo, hp, h403] at h
      · by_cases hrs : raisesForStatus status = true
        · have hstep : extractGo pages sid cid off acc (fuel + 1)
              = ([off], .ok acc) := by
            simp [extractGo, hp, h403, hrs]
          rw [hstep] at h ⊢
          simp only [ExtractOutcome.ok.injEq] at h
          simp [← h]
        · by_cases hmt : (parseProductsHtml cards sid cid).isEmpty = true
          · have hstep : extractGo pages sid cid off acc (fuel + 1)
                = ([off], .ok acc) := by
              simp [extractGo, hp, h403, hrs, hmt]
            rw [hstep] at h ⊢
            simp only [ExtractOutcome.ok.injEq] at h
            simp [← h]
          · have hstep : extractGo pages sid cid off acc (fuel + 1)
                = (off :: (extractGo pages sid cid (off + 12)
                    (acc ++ parseProductsHtml cards sid cid) fuel).1,
                  (extractGo pages sid cid (off + 12)
                    (acc ++ parseProductsHtml cards sid cid) fuel).2) := by
              simp [extractGo, hp, h403, hrs, hmt]
            rw [hstep] at h ⊢
            have h2 := ih (off + 12) (acc ++ parseProductsHtml cards sid cid) l h
            have hpos := extractGo_ok_len_pos pages sid cid fuel (off + 12)
              (acc ++ parseProductsHtml cards sid cid) l h
            set n := (extractGo pages sid cid (off + 12)
              (acc ++ parseProductsHtml cards sid cid) fuel).1.length with hn
            have hlen : (off :: (extractGo pages sid cid (off + 12)
                (acc ++ parseProductsHtml cards sid cid) fuel).1).length - 1 = n := by
              simp [hn]
            rw [hlen]
            have hsucc : n = (n - 1) + 1 := (Nat.succ_pred_eq_of_pos hpos).symm
            rw [hsucc, List.range_succ_eq_map, List.map_cons, List.map_map]
            have harith : ((fun i => pageProductsAt pages sid cid (off + 12 * i))
                ∘ Nat.succ)
                = fun i => pageProductsAt pages sid cid (off + 12 + 12 * i) := by
              funext i
              show pageProductsAt pages sid cid (off + 12 * Nat.succ i) = _
              rw [show off + 12 * Nat.succ i = off + 12 + 12 * i from by omega]
            rw [harith]
            have hfirst : pageProductsAt pages sid cid (off + 12 * 0)
                = parseProductsHtml cards sid cid := by
              simp [pageProductsAt, hp]
            rw [List.flatten_cons, hfirst, h2]
            simp

/-- Once a request is answered 403, it is the run's final request and the
run ends by raising `TokenExpiredException`. -/
theorem extractGo_403 (pages : Nat → Resp) (sid cid : Nat) :
    ∀ fuel off acc i cards,
      i < (extractGo pages sid cid off acc fuel).1.length →
      pages (off + 12 * i) = .page 403 cards →
      (extractGo pages sid cid off acc fuel).2 = .tokenExpired ∧
        i + 1 = (extractGo pages sid cid off acc fuel).1.length := by
  intro fuel
  induction fuel with
  | zero => intro off acc i cards h _; simp [extractGo] at h
  | succ fuel ih =>
    intro off acc i cards h h403i
    cases hp : pages off with
    | netError =>
      have hstep : extractGo pages sid cid off acc (fuel + 1)
          = ([off], .ok acc) := by simp [extractGo, hp]
      rw [hstep] at h ⊢
      simp at h
      subst h
      simp at h403i
      rw [hp] at h403i
      cases h403i
    | page status cards0 =>
      by_cases h403 : status = 403
      · have hstep : extractGo pages sid cid off acc (fuel + 1)
            = ([off], .tokenExpired) := by simp [extractGo, hp, h403]
        rw [hstep] at h ⊢
        simp at h
        subst h
        simp
      · by_cases hrs : raisesForStatus status = true
        · have hstep : extractGo pages sid cid off acc (fuel + 1)
              = ([off], .ok acc) := by simp [extractGo, hp, h403, hrs]
          rw [hstep] at h ⊢
          simp at h
          subst h
          simp at h403i
          rw [hp] at h403i
          simp at h403i
          exact absurd h403i.1 h403
        · by_cases hmt : (parseProductsHtml cards0 sid cid).isEmpty = true
          · have hstep : extractGo pages sid cid off acc (fuel + 1)
                = ([off], .ok acc) := by simp [extractGo, hp, h403, hrs, hmt]
            rw [hstep] at h ⊢
            simp at h
            subst h
            simp at h403i
            rw [hp] at h403i
            simp at h403i
            exact absurd h403i.1 h403
          · have hstep : extractGo pages sid cid off acc (fuel + 1)
                = (off :: (extractGo pages sid cid (off + 12)
                    (acc ++ parseProductsHtml cards0 sid cid) fuel).1,
                  (extractGo pages sid cid (off + 12)
                    (acc ++ parseProductsHtml cards0 sid cid) fuel).2) := by
              simp [extractGo, hp, h403, hrs, hmt]
            rw [hstep] at h ⊢
            cases i with
            | zero =>
              simp at h403i
              rw [hp] at h403i
              simp at h403i
              exact absurd h403i.1 h403
            | succ j =>
              have h' : j < (extractGo pages sid cid (off + 12)
                  (acc ++ parseProductsHtml cards0 sid cid) fuel).1.length := by
                simpa using h
              have harg : off + 12 * (j + 1) = off + 12 + 12 * j := by ring
              rw [harg] at h403i
              obtain ⟨h1, h2⟩ := ih (off + 12)
                (acc ++ parseProductsHtml cards0 sid cid) j cards h' h403i
              refine ⟨h1, ?_⟩
              simp [← h2]

/-- Once a request fails with a transient network error, it is the run's
final request and the run returns everything accumulated from the pages
before it. -/
theorem extractGo_netError (pages : Nat → Resp) (sid cid : Nat) :
    ∀ fuel off acc i,
      i < (extractGo pages sid cid off acc fuel).1.length →
      pages (off + 12 * i) = .netError →
      (extractGo pages sid cid off acc fuel).2
        = .ok (acc ++ ((List.range i).map
            (fun j => pageProductsAt pages sid cid (off + 12 * j))).flatten) ∧
        i + 1 = (extractGo pages sid cid off acc fuel).1.length := by
  intro fuel
  induction fuel with
  | zero => intro off acc i h _; simp [extractGo] at h
  | succ fuel ih =>
    intro off acc i h hnet
    cases hp : pages off with
    | netError =>
      have hstep : extractGo pages sid cid off acc (fuel + 1)
          = ([off], .ok acc) := by simp [extractGo, hp]
      rw [hstep] at h ⊢
      simp at h
      subst h
      simp
    | page status cards0 =>
      by_cases h403 : status = 403
      · have hstep : extractGo pages sid cid off acc (fuel + 1)
            = ([off], .tokenExpired) := by simp [extractGo, hp, h403]
        rw [hstep] at h ⊢
        simp at h
        subst h
        simp at hnet
        rw [hp] at hnet
        cases hnet
      · by_cases hrs : raisesForStatus status = true
        · have hstep : extractGo pages sid cid off acc (fuel + 1)
              = ([off], .ok acc) := by simp [extractGo, hp, h403, hrs]
          rw [hstep] at h ⊢
          simp at h
          subst h
          simp at hnet
          rw [hp] at hnet
          cases hnet
        · by_cases hmt : (parseProductsHtml cards0 sid cid).isEmpty = true
          · have hstep : extractGo pages sid cid off acc (fuel + 1)
                = ([off], .ok acc) := by simp [extractGo, hp, h403, hrs, hmt]
            rw [hstep] at h ⊢
            simp at h
            subst h
            simp at hnet
            rw [hp] at hnet
            cases hnet
          · have hstep : extractGo pages sid cid off acc (fuel + 1)
                = (off :: (extractGo pages sid cid (off + 12)
                    (acc ++ parseProductsHtml cards0 sid cid) fuel).1,
                  (extractGo pages sid cid (off + 12)
                    (acc ++ parseProductsHtml cards0 sid cid) fuel).2) := by
              simp [extractGo, hp, h403, hrs, hmt]
            rw [hstep] at h ⊢
            cases i with
            | zero =>
              simp at hnet
              rw [hp] at hnet
              cases hnet
            | succ j =>
              have h' : j < (extractGo pages sid cid (off + 12)
                  (acc ++ parseProductsHtml cards0 sid cid) fuel).1.length := by
                simpa using h
              have harg : off + 12 * (j + 1) = off + 12 + 12 * j := by ring
              rw [harg] at hnet
              obtain ⟨h1, h2⟩ := ih (off + 12)
                (acc ++ parseProductsHtml cards0 sid cid) j h' hnet
              constructor
              · rw [h1]
                congr 1
                rw [List.range_succ_eq_map, List.map_cons, List.map_map]
                have harith : ((fun j => pageProductsAt pages sid cid (off + 12 * j))
                    ∘ Nat.succ)
                    = fun j => pageProductsAt pages sid cid (off + 12 + 12 * j) := by
                  funext k
                  show pageProductsAt pages sid cid (off + 12 * Nat.succ k) = _
                  rw [show off + 12 * Nat.succ k = off + 12 + 12 * k from by omega]
                rw [harith, List.flatten_cons]
                have hfirst : pageProductsAt pages sid cid (off + 12 * 0)
                    = parseProductsHtml cards0 sid cid := by
                  simp [pageProductsAt, hp]
                simp only [Nat.mul_zero, Nat.add_zero] at hfirst ⊢
                rw [hfirst]
                simp
              · simp [← h2]

/-! ## Concrete example pages used by the witnesses -/

/-- A well-formed product card: name h6, price h6, struck original price. -/
def cardEx : Card :=
  { linkHref := some "tee.html"
    h6s := [⟨"Tee", []⟩, ⟨"1,299", []⟩, ⟨"1,499", ["l-through"]⟩]
    button := some ("11", "Add to cart")
    imgSrc := some "tee.jpg"
    sizeText := none }

/-- The product dictionary `cardEx` parses to. -/
def prodEx : Product :=
  { store_id := 1
    category_id := 2
    product_id := "11"
    product_name := "Tee"
    product_url := "tee.html"
    image_url := "tee.jpg"
    current_price := some 1299
    original_price := some 1499
    size := ""
    stock_status := "in_stock" }

/-- A server with one full page of one product, then an empty page. -/
def pagesEx : Nat → Resp :=
  fun o => if o = 0 then .page 200 [cardEx] else .page 200 []

/-- A server whose second page answers 403. -/
def pagesEx403 : Nat → Resp :=
  fun o => if o = 0 then .page 200 [cardEx] else .page 403 []

/-- A server whose second page times out. -/
def pagesExNet : Nat → Resp :=
  fun o => if o = 0 then .page 200 [cardEx] else .netError

/-- C2: every extraction starts at offset 0 and advances the offset by
exactly 12 per request; a further request is only ever issued after a page
that parsed to a non-empty product list (so the request after a zero-parse
page never happens), and a normally returning run hands back exactly the
products accumulated from the fully consumed pages. -/
theorem extract_products_pagination (pages : Nat → Resp)
    (sid cid fuel : Nat) :
    (extract_products pages sid cid fuel).1
        = (List.range (extract_products pages sid cid fuel).1.length).map
            (fun i => 12 * i)
    ∧ (∀ i, i + 1 < (extract_products pages sid cid fuel).1.length →
        ∃ status cards, pages (12 * i) = .page status cards ∧ status ≠ 403 ∧
          raisesForStatus status = false ∧
          (parseProductsHtml cards sid cid).isEmpty = false)
    ∧ (∀ l, (extract_products pages sid cid fuel).2 = .ok l →
        l = ((List.range
            ((extract_products pages sid cid fuel).1.length - 1)).map
          (fun i => pageProductsAt pages sid cid (12 * i))).flatten) := by
  refine ⟨?_, ?_, ?_⟩
  · obtain ⟨n, hn⟩ := extractGo_fst_shape pages sid cid fuel 0 []
    have hn' : (extract_products pages sid cid fuel).1
        = (List.range n).map (fun i => 0 + 12 * i) := hn
    rw [hn']
    simp
  · intro i h
    have h' : i + 1 < (extractGo pages sid cid 0 [] fuel).1.length := h
    obtain ⟨status, cards, h1, h2, h3, h4⟩ :=
      extractGo_continues pages sid cid fuel 0 [] i h'
    exact ⟨status, cards, by simpa using h1, h2, h3, h4⟩
  · intro l h
    have h' : (extractGo pages sid cid 0 [] fuel).2 = .ok l := h
    have := extractGo_ok_payload pages sid cid fuel 0 [] l h'
    simpa using this

/-- Witness for C2 on the concrete two-page server. -/
theorem extract_products_pagination_witness :
    ([prodEx] = ((List.range
        ((extract_products pagesEx 1 2 9).1.length - 1)).map
      (fun i => pageProductsAt pagesEx 1 2 (12 * i))).flatten)
    ∧ (∃ status cards, pagesEx (12 * 0) = .page status cards ∧
        status ≠ 403 ∧ raisesForStatus status = false ∧
        (parseProductsHtml cards 1 2).isEmpty = false) := by
  constructor
  · exact (extract_products_pagination pagesEx 1 2 9).2.2 [prodEx] (by decide)
  · exact (extract_products_pagination pagesEx 1 2 9).2.1 0 (by decide)

/-- C4: a 403 response makes the run raise `TokenExpiredException` to the
caller, and that request is the run's last — no further page is fetched. -/
theorem extract_products_403_raises (pages : Nat → Resp)
    (sid cid fuel i : Nat) (cards : List Card) :
    i < (extract_products pages sid cid fuel).1.length →
    pages (12 * i) = .page 403 cards →
    (extract_products pages sid cid fuel).2 = .tokenExpired ∧
      i + 1 = (extract_products pages sid cid fuel).1.length := by
  intro h h403
  have h' : i < (extractGo pages sid cid 0 [] fuel).1.length := h
  have h403' : pages (0 + 12 * i) = .page 403 cards := by simpa using h403
  exact extractGo_403 pages sid cid fuel 0 [] i cards h' h403'

/-- Witness for C4: the second request is answered 403. -/
theorem extract_products_403_raises_witness :
    (extract_products pagesEx403 1 2 9).2 = .tokenExpired ∧
      1 + 1 = (extract_products pagesEx403 1 2 9).1.length :=
  extract_products_403_raises pagesEx403 1 2 9 1 [] (by decide) (by decide)

/-- C5: a transient network failure ends the run, which returns — rather
than raises — the products accumulated from the pages fetched before the
failing request, and no further page is fetched. -/
theorem extract_products_netError_partial (pages : Nat → Resp)
    (sid cid fuel i : Nat) :
    i < (extract_products pages sid cid fuel).1.length →
    pages (12 * i) = .netError →
    (extract_products pages sid cid fuel).2
        = .ok (((List.range i).map
            (fun j => pageProductsAt pages sid cid (12 * j))).flatten) ∧
      i + 1 = (extract_products pages sid cid fuel).1.length := by
  intro h hnet
  have h' : i < (extractGo pages sid cid 0 [] fuel).1.length := h
  have hnet' : pages (0 + 12 * i) = .netError := by simpa using hnet
  have := extractGo_netError pages sid cid fuel 0 [] i h' hnet'
  simpa using this

/-- Witness for C5: the second request times out; the first page's product
is returned. -/
theorem extract_products_netError_partial_witness :
    (extract_products pagesExNet 1 2 9).2
        = .ok (((List.range 1).map
            (fun j => pageProductsAt pagesExNet 1 2 (12 * j))).flatten) ∧
      1 + 1 = (extract_products pagesExNet 1 2 9).1.length :=
  extract_products_netError_partial pagesExNet 1 2 9 1 (by decide) (by decide)

/-! ## Lemmas about product-card parsing -/

theorem priceFold_none : ∀ h6s : List H6, h6s.foldl priceStep none = none := by
  intro h6s
  induction h6s with
  | nil => rfl
  | cons hh t ih => simpa [priceStep] using ih

/-- Once `current_price` is set, the rest of the price loop never changes
it. -/
theorem priceFold_set : ∀ (h6s : List H6) (v : Nat) (o curr orig : Option Nat),
    h6s.foldl priceStep (some (some v, o)) = some (curr, orig) →
    curr = some v := by
  intro h6s
  induction h6s with
  | nil =>
    intro v o curr orig h
    simp at h
    exact h.1.symm
  | cons hh t ih =>
    intro v o curr orig h
    rw [List.foldl_cons] at h
    by_cases hcl : "l-through" ∈ hh.classes
    · rcases hr : digitCommaRun hh.text.data with _ | tok
      · have hps : priceStep (some (some v, o)) hh = some (some v, o) := by
          simp [priceStep, hcl, hr]
        rw [hps] at h
        exact ih v o curr orig h
      · rcases hpt : parsePriceTok tok with _ | w
        · have hps : priceStep (some (some v, o)) hh = none := by
            simp [priceStep, hcl, hr, hpt]
          rw [hps, priceFold_none] at h
          cases h
        · have hps : priceStep (some (some v, o)) hh = some (some v, some w) := by
            simp [priceStep, hcl, hr, hpt]
          rw [hps] at h
          exact ih v (some w) curr orig h
    · have hps : priceStep (some (some v, o)) hh = some (some v, o) := by
        rcases hr : digitCommaRun hh.text.data with _ | tok <;>
          simp [priceStep, hcl, hr]
      rw [hps] at h
      exact ih v o curr orig h

/-- The claim's description of where `current_price` comes from: the first
`h6` element without the `l-through` class whose text has a `[\d,]+` match
that survives comma-stripping, evaluated to its number — stated
independently of the extraction fold. -/
def firstH6Price (h6s : List H6) : Option Nat :=
  h6s.findSome? (fun h =>
    if "l-through" ∉ h.classes then
      (digitCommaRun h.text.data).bind parsePriceTok
    else none)

/-- A price loop that completes without a `ValueError` computes exactly the
first-matching-h6 price. -/
theorem priceFold_first : ∀ (h6s : List H6) (o curr orig : Option Nat),
    h6s.foldl priceStep (some (none, o)) = some (curr, orig) →
    curr = firstH6Price h6s := by
  intro h6s
  induction h6s with
  | nil =>
    intro o curr orig h
    simp at h
    simp [firstH6Price, ← h.1]
  | cons hh t ih =>
    intro o curr orig h
    rw [List.foldl_cons] at h
    by_cases hcl : "l-through" ∈ hh.classes
    · have hf : firstH6Price (hh :: t) = firstH6Price t := by
        simp [firstH6Price, List.findSome?_cons, hcl]
      rw [hf]
      rcases hr : digitCommaRun hh.text.data with _ | tok
      · have hps : priceStep (some (none, o)) hh = some (none, o) := by
          simp [priceStep, hcl, hr]
        rw [hps] at h
        exact ih o curr orig h
      · rcases hpt : parsePriceTok tok with _ | w
        · have hps : priceStep (some (none, o)) hh = none := by
            simp [priceStep, hcl, hr, hpt]
          rw [hps, priceFold_none] at h
          cases h
        · have hps : priceStep (some (none, o)) hh = some (none, some w) := by
            simp [priceStep, hcl, hr, hpt]
          rw [hps] at h
          exact ih (some w) curr orig h
    · rcases hr : digitCommaRun hh.text.data with _ | tok
      · have hps : priceStep (some (none, o)) hh = some (none, o) := by
          simp [priceStep, hcl, hr]
        rw [hps] at h
        have hf : firstH6Price (hh :: t) = firstH6Price t := by
          simp [firstH6Price, List.findSome?_cons, hcl, hr]
        rw [hf]
        exact ih o curr orig h
      · rcases hpt : parsePriceTok tok with _ | w
        · have hps : priceStep (some (none, o)) hh = none := by
            simp [priceStep, hcl, hr, hpt]
          rw [hps, priceFold_none] at h
          cases h
        · have hps : priceStep (some (none, o)) hh = some (some w, o) := by
            simp [priceStep, hcl, hr, hpt]
          rw [hps] at h
          have hcurr := priceFold_set t w o curr orig h
          have hf : firstH6Price (hh :: t) = some w := by
            simp [firstH6Price, List.findSome?_cons, hcl, hr, hpt]
          rw [hf, hcurr]

/-- Criterion C8: a parsed product is out of stock exactly when the button
text, lowercased, is the literal string of a sold-out label; every other
button text gives in-stock. -/
theorem stock_status_sold_out (card : Card) (sid cid : Nat)
    (pid btext : String) (p : Product) :
    card.button = some (pid, btext) →
    extractProductDetails card sid cid = some p →
    (p.stock_status = "out_of_stock" ↔ pyLower btext = "sold out") ∧
    (p.stock_status = "in_stock" ↔ pyLower btext ≠ "sold out") := by
  intro hb hp
  unfold extractProductDetails at hp
  rcases hl : card.linkHref with _ | url
  · rw [hl] at hp; cases hp
  · rw [hl] at hp
    rcases hh : card.h6s.head? with _ | nameH6
    · rw [hh] at hp; cases hp
    · rw [hh] at hp
      rw [hb] at hp
      rcases hps : card.h6s.foldl priceStep (some (none, none))
          with _ | ⟨curr, orig⟩
      · rw [hps] at hp; cases hp
      · rw [hps] at hp
        simp only [Option.some.injEq] at hp
        have hstock : p.stock_status = stockStatusOf btext := by
          rw [← hp]
        rw [hstock]
        unfold stockStatusOf
        by_cases hso : pyLower btext = "sold out"
        · simp [hso]
        · simp [hso]

/-- Witness card for C8/C9: the display name itself contains a number and
the button reads Sold Out. -/
def cardC9 : Card :=
  { linkHref := some "tee2.html"
    h6s := [⟨"Classic Tee 501", []⟩, ⟨"1,299", []⟩]
    button := some ("12", "Sold Out")
    imgSrc := none
    sizeText := some "XL" }

/-- The product `cardC9` parses to: the name's 501 lands in
`current_price`. -/
def prodC9 : Product :=
  { store_id := 1
    category_id := 2
    product_id := "12"
    product_name := "Classic Tee 501"
    product_url := "tee2.html"
    image_url := ""
    current_price := some 501
    original_price := none
    size := "XL"
    stock_status := "out_of_stock" }

/-- Witness for C8 on the concrete sold-out card. -/
theorem stock_status_sold_out_witness :
    (prodC9.stock_status = "out_of_stock" ↔ pyLower "Sold Out" = "sold out")
    ∧ (prodC9.stock_status = "in_stock" ↔ pyLower "Sold Out" ≠ "sold out") :=
  stock_status_sold_out cardC9 1 2 "12" "Sold Out" prodC9 (by decide)
    (by decide)

/-- Criterion C9: `current_price` of any successfully parsed card is the
value of the first `h6` without the `l-through` class whose text carries a
digit run — the product-name `h6` included, so a digit-bearing name wins
over the card's real price element. -/
theorem current_price_from_first_h6 (card : Card) (sid cid : Nat)
    (p : Product) :
    extractProductDetails card sid cid = some p →
    p.current_price = firstH6Price card.h6s := by
  intro hp
  unfold extractProductDetails at hp
  rcases hl : card.linkHref with _ | url
  · rw [hl] at hp; cases hp
  · rw [hl] at hp
    rcases hh : card.h6s.head? with _ | nameH6
    · rw [hh] at hp; cases hp
    · rw [hh] at hp
      rcases hb : card.button with _ | ⟨pid, btext⟩
      · rw [hb] at hp; cases hp
      · rw [hb] at hp
        rcases hps : card.h6s.foldl priceStep (some (none, none))
            with _ | ⟨curr, orig⟩
        · rw [hps] at hp; cases hp
        · rw [hps] at hp
          simp only [Option.some.injEq] at hp
          have hcurr : p.current_price = curr := by rw [← hp]
          rw [hcurr]
          exact priceFold_first card.h6s none curr orig hps

/-- Witness for C9: on `cardC9` the number mined from the display name,
not the price element's 1,299, becomes `current_price`. -/
theorem current_price_from_first_h6_witness :
    prodC9.current_price = firstH6Price cardC9.h6s ∧
      firstH6Price cardC9.h6s = some 501 :=
  ⟨current_price_from_first_h6 cardC9 1 2 prodC9 (by decide), by decide⟩

/-! ## Theorems about the store worker -/

/-- A store whose only category always raises expiry, with a token refresh
that obtains nothing. -/
def envC1 : WorkerEnv :=
  { store_id := 5
    web_token := "t0"
    categories := [1]
    extract := fun _ _ => .tokenExpired
    refresh := fun _ => none }

/-- A store whose first category succeeds and whose second raises expiry
on both the first attempt and the post-refresh retry. -/
def envC1b : WorkerEnv :=
  { store_id := 5
    web_token := "t0"
    categories := [1, 2]
    extract := fun _ c => if c = 1 then .ok [prodEx] else .tokenExpired
    refresh := fun _ => some "t1" }

/-- Counterexample to C1 as stated: expiry is raised, the re-acquisition
obtains no credential — and the store run returns success = true (the
failed-refresh arm executes `break`, after which the normal
`return (..., total_products, True)` runs), not the claimed false. -/
theorem scrape_refresh_none_counterexample :
    (scrape_store_products envC1).success = true ∧
      (scrape_store_products envC1).count = 0 ∧
      (scrape_store_products envC1).calls = [("t0", 1)] := by decide

/-- C1 as amended: on expiry the worker always abandons the remaining
categories (the trace ends at the current category), but the outcome
differs by arm — a failed re-acquisition returns success = true with the
count persisted so far, while a retry that raises again reaches the outer
handler and returns success = false with count 0. -/
theorem worker_expiry_abandons (env : WorkerEnv) (c : Nat) (rest : List Nat)
    (tok : String) (r total : Nat) (calls : List (String × Nat))
    (pers : List (List Product)) (tu : List String) :
    env.extract tok c = .tokenExpired →
    (env.refresh r = none →
      workerGo env (c :: rest) tok r total calls pers tu
        = ⟨total, true, calls ++ [(tok, c)], pers, tu⟩)
    ∧ (∀ t', env.refresh r = some t' →
        env.extract t' c = .tokenExpired ∨ env.extract t' c = .error →
        workerGo env (c :: rest) tok r total calls pers tu
          = ⟨0, false, calls ++ [(tok, c), (t', c)], pers, tu ++ [t']⟩) := by
  intro hexp
  constructor
  · intro hr
    simp [workerGo, hexp, hr]
  · intro t' hr hretry
    rcases hretry with h | h <;> simp [workerGo, hexp, hr, h]

/-- Witness for the amended C1, both arms, on the two concrete stores. -/
theorem worker_expiry_abandons_witness :
    (workerGo envC1b [2] "t0" 0 1 [("t0", 1)] [[prodEx]] []
      = ⟨0, false, [("t0", 1)] ++ [("t0", 2), ("t1", 2)], [[prodEx]], [] ++ ["t1"]⟩)
    ∧ (workerGo envC1 [1] "t0" 0 0 [] [] []
      = ⟨0, true, [] ++ [("t0", 1)], [], []⟩) := by
  constructor
  · exact (worker_expiry_abandons envC1b 2 [] "t0" 0 1 [("t0", 1)]
      [[prodEx]] [] (by decide)).2 "t1" (by decide) (Or.inl (by decide))
  · exact (worker_expiry_abandons envC1 1 [] "t0" 0 0 [] [] []
      (by decide)).1 (by decide)

/-- C10: the outer-handler return (reached when the post-refresh retry of a
category raises again) reports a product count of 0 and success = false,
while the batches already handed to the persistence layer for earlier
categories of this run stay persisted. -/
theorem worker_outer_handler_zero_count (env : WorkerEnv) (c : Nat)
    (rest : List Nat) (tok t' : String) (r total : Nat)
    (calls : List (String × Nat)) (pers : List (List Product))
    (tu : List String) :
    env.extract tok c = .tokenExpired →
    env.refresh r = some t' →
    env.extract t' c = .tokenExpired ∨ env.extract t' c = .error →
    (workerGo env (c :: rest) tok r total calls pers tu).count = 0 ∧
    (workerGo env (c :: rest) tok r total calls pers tu).success = false ∧
    (workerGo env (c :: rest) tok r total calls pers tu).persisted = pers := by
  intro hexp hr hretry
  rcases hretry with h | h <;> simp [workerGo, hexp, hr, h]

/-- Witness for C10: one batch was persisted and counted before the
failing category; the run still reports count 0 with the batch kept. -/
theorem worker_outer_handler_zero_count_witness :
    (workerGo envC1b [2] "t0" 0 1 [("t0", 1)] [[prodEx]] []).count = 0 ∧
    (workerGo envC1b [2] "t0" 0 1 [("t0", 1)] [[prodEx]] []).success = false ∧
    (workerGo envC1b [2] "t0" 0 1 [("t0", 1)] [[prodEx]] []).persisted
      = [[prodEx]] :=
  worker_outer_handler_zero_count envC1b 2 [] "t0" "t1" 0 1 [("t0", 1)]
    [[prodEx]] [] (by decide) (by decide) (Or.inl (by decide))

/-! ## Lemmas about the product upsert -/

theorem rowView_applyDupUpdate (r : ProductRow) (p : Product) (now : Nat) :
    rowView (applyDupUpdate r p now) = viewOfProd p now := rfl

theorem rowView_insertRow (p : Product) (now : Nat) :
    rowView (insertRow p now) = viewOfProd p now := rfl

theorem rowKey_applyDupUpdate (r : ProductRow) (p : Product) (now : Nat) :
    rowKey (applyDupUpdate r p now) = rowKey r := rfl

theorem rowKey_insertRow (p : Product) (now : Nat) :
    rowKey (insertRow p now) = prodKey p := rfl

theorem findRow_nil (k : Nat × String) : findRow [] k = none := rfl

theorem findRow_cons (r : ProductRow) (rs : List ProductRow)
    (k : Nat × String) :
    findRow (r :: rs) k = if rowKey r = k then some r else findRow rs k := by
  by_cases h : rowKey r = k <;> simp [findRow, List.find?_cons, h]

/-- One upserted tuple changes exactly its own key's lookup, to the
duplicate-update of the old row when one existed and to the fresh insert
otherwise. -/
theorem findRow_upsertOne (t : List ProductRow) (p : Product) (now : Nat)
    (k : Nat × String) :
    findRow (upsertOne t p now) k =
      if k = prodKey p then
        some ((findRow t k).elim (insertRow p now)
          (fun r => applyDupUpdate r p now))
      else findRow t k := by
  induction t with
  | nil =>
    by_cases h : k = prodKey p
    · simp [upsertOne, findRow_cons, findRow_nil, rowKey_insertRow, h]
    · have h' : ¬ prodKey p = k := fun hc => h hc.symm
      simp [upsertOne, findRow_cons, findRow_nil, rowKey_insertRow, h, h']
  | cons r rs ih =>
    by_cases hr : rowKey r = prodKey p
    · have hstep : upsertOne (r :: rs) p now
          = applyDupUpdate r p now :: rs := by simp [upsertOne, hr]
      rw [hstep]
      by_cases hk : k = prodKey p
      · have hrk : rowKey r = k := by rw [hr, hk]
        rw [findRow_cons, findRow_cons]
        rw [rowKey_applyDupUpdate]
        simp [hrk, hk]
      · have hrk : ¬ rowKey r = k := by rw [hr]; exact fun hc => hk hc.symm
        rw [findRow_cons, findRow_cons, rowKey_applyDupUpdate]
        simp [hrk, hk]
    · have hstep : upsertOne (r :: rs) p now = r :: upsertOne rs p now := by
        simp [upsertOne, hr]
      rw [hstep]
      by_cases hrk : rowKey r = k
      · have hk : ¬ k = prodKey p := by
          intro hc; exact hr (hrk.trans hc)
        rw [findRow_cons, findRow_cons]
        simp [hrk, hk]
      · rw [findRow_cons, findRow_cons, ih]
        by_cases hk : k = prodKey p <;> simp [hrk, hk, hr]

/-- The keys after one upserted tuple: unchanged on the duplicate branch,
the new key appended on the insert branch. -/
theorem tableKeys_upsertOne (t : List ProductRow) (p : Product) (now : Nat) :
    tableKeys (upsertOne t p now) =
      if prodKey p ∈ tableKeys t then tableKeys t
      else tableKeys t ++ [prodKey p] := by
  induction t with
  | nil => simp [upsertOne, tableKeys, rowKey_insertRow]
  | cons r rs ih =>
    by_cases hr : rowKey r = prodKey p
    · have hstep : upsertOne (r :: rs) p now
          = applyDupUpdate r p now :: rs := by simp [upsertOne, hr]
      have hmem : prodKey p ∈ tableKeys (r :: rs) := by
        simp [tableKeys, ← hr]
      rw [hstep]
      simp [tableKeys, hmem, rowKey_applyDupUpdate, hr]
    · have hstep : upsertOne (r :: rs) p now = r :: upsertOne rs p now := by
        simp [upsertOne, hr]
      rw [hstep]
      have hkeys : tableKeys (r :: upsertOne rs p now)
          = rowKey r :: tableKeys (upsertOne rs p now) := rfl
      have hkeys2 : tableKeys (r :: rs) = rowKey r :: tableKeys rs := rfl
      rw [hkeys, hkeys2, ih]
      by_cases hin : prodKey p ∈ tableKeys rs
      · have hmem : prodKey p ∈ rowKey r :: tableKeys rs :=
          List.mem_cons_of_mem _ hin
        simp only [hin, if_true, ite_true, hmem]
      · have hmem : ¬ prodKey p ∈ rowKey r :: tableKeys rs := by
          intro hc
          rcases List.mem_cons.mp hc with h1 | h2
          · exact hr h1.symm
          · exact hin h2
        simp only [hin, hmem, if_false, ite_false]
        rfl

theorem mem_tableKeys_upsertOne (t : List ProductRow) (p : Product)
    (now : Nat) (k : Nat × String) :
    k ∈ tableKeys (upsertOne t p now)
      ↔ k ∈ tableKeys t ∨ k = prodKey p := by
  rw [tableKeys_upsertOne]
  by_cases hin : prodKey p ∈ tableKeys t
  · simp only [hin, if_true, ite_true]
    constructor
    · exact Or.inl
    · rintro (h | rfl)
      · exact h
      · exact hin
  · simp [hin]

theorem nodup_tableKeys_upsertOne (t : List ProductRow) (p : Product)
    (now : Nat) (hnd : (tableKeys t).Nodup) :
    (tableKeys (upsertOne t p now)).Nodup := by
  rw [tableKeys_upsertOne]
  by_cases hin : prodKey p ∈ tableKeys t
  · simpa [hin] using hnd
  · simp only [hin, if_false, ite_false]
    rw [List.nodup_append]
    exact ⟨hnd, List.nodup_singleton _, by simpa [List.disjoint_singleton]⟩

theorem length_upsertOne (t : List ProductRow) (p : Product) (now : Nat) :
    (upsertOne t p now).length =
      if prodKey p ∈ tableKeys t then t.length else t.length + 1 := by
  have h1 : (upsertOne t p now).length
      = (tableKeys (upsertOne t p now)).length := by
    simp [tableKeys]
  have h2 : t.length = (tableKeys t).length := by simp [tableKeys]
  rw [h1, h2, tableKeys_upsertOne]
  by_cases hin : prodKey p ∈ tableKeys t <;> simp [hin]

theorem nodup_tableKeys_bulk (ps : List Product) (now : Nat) :
    ∀ t : List ProductRow, (tableKeys t).Nodup →
      (tableKeys (bulk_upsert_products t ps now)).Nodup := by
  induction ps with
  | nil => intro t h; exact h
  | cons p ps ih =>
    intro t h
    exact ih (upsertOne t p now) (nodup_tableKeys_upsertOne t p now h)

theorem mem_tableKeys_bulk (ps : List Product) (now : Nat) (k : Nat × String) :
    ∀ t : List ProductRow,
      k ∈ tableKeys (bulk_upsert_products t ps now)
        ↔ k ∈ tableKeys t ∨ k ∈ ps.map prodKey := by
  induction ps with
  | nil => intro t; simp [bulk_upsert_products]
  | cons p ps ih =>
    intro t
    have hstep : bulk_upsert_products t (p :: ps) now
        = bulk_upsert_products (upsertOne t p now) ps now := rfl
    rw [hstep, ih, mem_tableKeys_upsertOne]
    simp [or_assoc, or_comm, or_left_comm]

theorem length_bulk_of_keys_mem (ps : List Product) (now : Nat) :
    ∀ t : List ProductRow, (∀ p ∈ ps, prodKey p ∈ tableKeys t) →
      (bulk_upsert_products t ps now).length = t.length := by
  induction ps with
  | nil => intro t _; rfl
  | cons p ps ih =>
    intro t h
    have hstep : bulk_upsert_products t (p :: ps) now
        = bulk_upsert_products (upsertOne t p now) ps now := rfl
    have hp : prodKey p ∈ tableKeys t := h p (List.mem_cons_self p ps)
    have hkeys : tableKeys (upsertOne t p now) = tableKeys t := by
      rw [tableKeys_upsertOne]
      simp [hp]
    have hlen : (upsertOne t p now).length = t.length := by
      rw [length_upsertOne]
      simp [hp]
    rw [hstep, ih (upsertOne t p now) (fun q hq => by
      rw [hkeys]; exact h q (List.mem_cons_of_mem p hq))]
    exact hlen

/-- After the whole batch, a key's lookup shows the values of the last
batch element with that key (its mutable view — everything except
`created_at`), and keys untouched by the batch are unchanged. -/
theorem findRow_bulk_view (now : Nat) (k : Nat × String) :
    ∀ (ps : List Product) (t : List ProductRow),
      (findRow (bulk_upsert_products t ps now) k).map rowView =
        match lastMatch k ps with
        | some q => some (viewOfProd q now)
        | none => (findRow t k).map rowView := by
  intro ps
  induction ps with
  | nil => intro t; rfl
  | cons p ps ih =>
    intro t
    have hstep : bulk_upsert_products t (p :: ps) now
        = bulk_upsert_products (upsertOne t p now) ps now := rfl
    rw [hstep, ih (upsertOne t p now)]
    rcases hlm : lastMatch k ps with _ | q
    · show (findRow (upsertOne t p now) k).map rowView = _
      rw [findRow_upsertOne]
      by_cases hk : k = prodKey p
      · have hpk : prodKey p = k := hk.symm
        simp only [hk, if_true, ite_true, Option.map_some']
        show some (rowView ((findRow t (prodKey p)).elim (insertRow p now)
          (fun r => applyDupUpdate r p now))) = _
        rcases findRow t (prodKey p) with _ | r
        · simp [lastMatch, hlm, hpk, rowView_insertRow]
        · simp [lastMatch, hlm, hpk, rowView_applyDupUpdate]
      · have hpk : ¬ prodKey p = k := fun hc => hk hc.symm
        simp [hk, lastMatch, hlm, hpk]
    · simp [lastMatch, hlm]

theorem lastMatch_isSome_of_mem (p : Product) :
    ∀ ps : List Product, p ∈ ps →
      ∃ q, lastMatch (prodKey p) ps = some q := by
  intro ps
  induction ps with
  | nil => intro h; cases h
  | cons a ps ih =>
    intro h
    rcases hlm : lastMatch (prodKey p) ps with _ | q
    · rcases List.mem_cons.mp h with rfl | hmem
      · exact ⟨p, by simp [lastMatch, hlm]⟩
      · obtain ⟨q, hq⟩ := ih hmem
        rw [hq] at hlm
        cases hlm
    · exact ⟨q, by simp [lastMatch, hlm]⟩

theorem findRow_isSome_of_mem_keys (k : Nat × String) :
    ∀ t : List ProductRow, k ∈ tableKeys t →
      ∃ r, findRow t k = some r ∧ rowKey r = k := by
  intro t
  induction t with
  | nil => intro h; simp [tableKeys] at h
  | cons r rs ih =>
    intro h
    by_cases hr : rowKey r = k
    · exact ⟨r, by rw [findRow_cons]; simp [hr], hr⟩
    · have hmem : k ∈ tableKeys rs := by
        rcases List.mem_cons.mp h with h1 | h2
        · exact absurd h1.symm hr
        · exact h2
      obtain ⟨r', h1, h2⟩ := ih hmem
      exact ⟨r', by rw [findRow_cons]; simp [hr, h1], h2⟩

theorem count_eq_one_of_nodup_mem (l : List (Nat × String))
    (a : Nat × String) (hnd : l.Nodup) (hmem : a ∈ l) : l.count a = 1 := by
  induction l with
  | nil => cases hmem
  | cons b t ih =>
    rw [List.count_cons]
    rcases List.mem_cons.mp hmem with rfl | hmt
    · have hnotin : a ∉ t := (List.nodup_cons.mp hnd).1
      have hzero : t.count a = 0 := List.count_eq_zero.mpr hnotin
      simp [hzero]
    · have hne : a ≠ b := by
        rintro rfl
        exact (List.nodup_cons.mp hnd).1 hmt
      have hc := ih (List.nodup_cons.mp hnd).2 hmt
      have hne' : ¬ b = a := fun h => hne h.symm
      simp [hc, hne, hne']

/-- Criterion C3: the upsert is keyed on (`store_id`, `product_id`) and
idempotent — re-applying the same batch leaves one row per key (no
duplicates, no growth), refreshes every mutable field to the batch's
values with the newer timestamps, and turns `is_active` on for every
sighting on both the insert and the duplicate-key branch. -/
theorem bulk_upsert_idempotent (t : List ProductRow) (ps : List Product)
    (now₁ now₂ : Nat) (hnd : (tableKeys t).Nodup) :
    (tableKeys (bulk_upsert_products (bulk_upsert_products t ps now₁)
        ps now₂)).Nodup
    ∧ (bulk_upsert_products (bulk_upsert_products t ps now₁) ps now₂).length
        = (bulk_upsert_products t ps now₁).length
    ∧ (∀ p ∈ ps,
        (tableKeys (bulk_upsert_products (bulk_upsert_products t ps now₁)
          ps now₂)).count (prodKey p) = 1)
    ∧ (∀ p ∈ ps, ∃ q r,
        lastMatch (prodKey p) ps = some q ∧
        findRow (bulk_upsert_products (bulk_upsert_products t ps now₁)
          ps now₂) (prodKey p) = some r ∧
        rowView r = viewOfProd q now₂ ∧
        r.is_active = true ∧ r.last_synced_at = now₂ ∧ r.updated_at = now₂)
    ∧ (∀ p ∈ ps, ∃ r₁,
        findRow (bulk_upsert_products t ps now₁) (prodKey p) = some r₁ ∧
        r₁.is_active = true) := by
  have hnd₁ : (tableKeys (bulk_upsert_products t ps now₁)).Nodup :=
    nodup_tableKeys_bulk ps now₁ t hnd
  have hnd₂ : (tableKeys (bulk_upsert_products
      (bulk_upsert_products t ps now₁) ps now₂)).Nodup :=
    nodup_tableKeys_bulk ps now₂ _ hnd₁
  have hkeys₁ : ∀ p ∈ ps,
      prodKey p ∈ tableKeys (bulk_upsert_products t ps now₁) := by
    intro p hp
    exact (mem_tableKeys_bulk ps now₁ (prodKey p) t).mpr
      (Or.inr (List.mem_map.mpr ⟨p, hp, rfl⟩))
  have hkeys₂ : ∀ p ∈ ps,
      prodKey p ∈ tableKeys (bulk_upsert_products
        (bulk_upsert_products t ps now₁) ps now₂) := by
    intro p hp
    exact (mem_tableKeys_bulk ps now₂ (prodKey p) _).mpr
      (Or.inr (List.mem_map.mpr ⟨p, hp, rfl⟩))
  refine ⟨hnd₂, ?_, ?_, ?_, ?_⟩
  · exact length_bulk_of_keys_mem ps now₂ _ hkeys₁
  · intro p hp
    exact count_eq_one_of_nodup_mem _ _ hnd₂ (hkeys₂ p hp)
  · intro p hp
    obtain ⟨q, hq⟩ := lastMatch_isSome_of_mem p ps hp
    have hview := findRow_bulk_view now₂ (prodKey p) ps
      (bulk_upsert_products t ps now₁)
    rw [hq] at hview
    obtain ⟨r, hr, hrv⟩ := Option.map_eq_some'.mp hview
    have hcomp := hrv
    simp only [rowView, viewOfProd, Prod.mk.injEq] at hcomp
    exact ⟨q, r, hq, hr, hrv, hcomp.2.2.2.2.2.2.2.2.1,
      hcomp.2.2.2.2.2.2.2.2.2.1, hcomp.2.2.2.2.2.2.2.2.2.2⟩
  · intro p hp
    obtain ⟨q, hq⟩ := lastMatch_isSome_of_mem p ps hp
    have hview := findRow_bulk_view now₁ (prodKey p) ps t
    rw [hq] at hview
    obtain ⟨r₁, hr, hrv⟩ := Option.map_eq_some'.mp hview
    have hcomp := hrv
    simp only [rowView, viewOfProd, Prod.mk.injEq] at hcomp
    exact ⟨r₁, hr, hcomp.2.2.2.2.2.2.2.2.1⟩

/-- Witness for C3: one product applied twice over an empty table. -/
theorem bulk_upsert_idempotent_witness :
    (bulk_upsert_products (bulk_upsert_products [] [prodEx] 10)
        [prodEx] 20).length
      = (bulk_upsert_products ([] : List ProductRow) [prodEx] 10).length
    ∧ (tableKeys (bulk_upsert_products (bulk_upsert_products [] [prodEx] 10)
        [prodEx] 20)).count (prodKey prodEx) = 1 :=
  ⟨(bulk_upsert_idempotent [] [prodEx] 10 20 (by simp [tableKeys])).2.1,
   (bulk_upsert_idempotent [] [prodEx] 10 20
     (by simp [tableKeys])).2.2.1 prodEx (by decide)⟩

/-! ## Lemmas about the category pagination loop -/

/-- The page numbers a category run requests count up by one from 1. -/
theorem catGo_fst_shape (unescape : String → String)
    (responses : Nat → CatResp) (sid : Nat) (filter : Option (List String)) :
    ∀ fuel page acc, ∃ n,
      (catGo unescape responses sid filter page acc fuel).1
        = (List.range n).map (fun i => page + i) := by
  intro fuel
  induction fuel with
  | zero => intro page acc; exact ⟨0, rfl⟩
  | succ fuel ih =>
    intro page acc
    cases hp : responses page with
    | netError => exact ⟨1, by simp [catGo, hp, List.range_succ]⟩
    | page data =>
      by_cases hempty : data.isEmpty = true
      · exact ⟨1, by simp [catGo, hp, hempty, List.range_succ]⟩
      · by_cases hshort : data.length < 100
        · exact ⟨1, by simp [catGo, hp, hempty, hshort, List.range_succ]⟩
        · obtain ⟨n, hn⟩ := ih (page + 1) (acc ++ data.filterMap (fun c =>
            if skipsEntry filter (unescape c.name) then none
            else some (mkCategoryRow unescape sid c)))
          refine ⟨n + 1, ?_⟩
          simp only [catGo, hp, hempty, hshort, if_false,
            Bool.false_eq_true, ite_false]
          rw [hn, List.range_succ_eq_map, List.map_cons, List.map_map]
          have harith : ((fun i => page + i) ∘ Nat.succ)
              = fun i => page + 1 + i := by
            funext i
            simp [Function.comp]
            omega
          rw [harith]
          simp

/-- A further categories page is requested only after a successful page of
at least the full page size (100). -/
theorem catGo_continues (unescape : String → String)
    (responses : Nat → CatResp) (sid : Nat) (filter : Option (List String)) :
    ∀ fuel page acc i,
      i + 1 < (catGo unescape responses sid filter page acc fuel).1.length →
      ∃ data, responses (page + i) = .page data ∧ 100 ≤ data.length := by
  intro fuel
  induction fuel with
  | zero => intro page acc i h; simp [catGo] at h
  | succ fuel ih =>
    intro page acc i h
    cases hp : responses page with
    | netError => simp [catGo, hp] at h
    | page data =>
      by_cases hempty : data.isEmpty = true
      · simp [catGo, hp, hempty] at h
      · by_cases hshort : data.length < 100
        · simp [catGo, hp, hempty, hshort] at h
        · cases i with
          | zero =>
            refine ⟨data, by simpa using hp, ?_⟩
            omega
          | succ j =>
            have h' : j + 1 < (catGo unescape responses sid filter (page + 1)
                (acc ++ data.filterMap (fun c =>
                  if skipsEntry filter (unescape c.name) then none
                  else some (mkCategoryRow unescape sid c))) fuel).1.length := by
              simp only [catGo, hp, hempty, hshort, if_false,
                Bool.false_eq_true, ite_false] at h
              simpa using h
            obtain ⟨data', h1, h2⟩ := ih (page + 1) _ j h'
            refine ⟨data', ?_, h2⟩
            rw [show page + (j + 1) = page + 1 + j from by omega]
            exact h1

/-- A category run returns the starting accumulator plus the filtered
image of every entry of every page it requested. -/
theorem catGo_payload (unescape : String → String)
    (responses : Nat → CatResp) (sid : Nat) (filter : Option (List String)) :
    ∀ fuel page acc,
      (catGo unescape responses sid filter page acc fuel).2 =
        acc ++ (((catGo unescape responses sid filter page acc fuel).1.map
            (catEntriesAt responses)).flatten).filterMap
          (fun c => if skipsEntry filter (unescape c.name) then none
            else some (mkCategoryRow unescape sid c)) := by
  intro fuel
  induction fuel with
  | zero => intro page acc; simp [catGo]
  | succ fuel ih =>
    intro page acc
    cases hp : responses page with
    | netError => simp [catGo, hp, catEntriesAt]
    | page data =>
      by_cases hempty : data.isEmpty = true
      · have hdata : data = [] := List.isEmpty_iff.mp hempty
        simp [catGo, hp, hempty, catEntriesAt, hdata]
      · by_cases hshort : data.length < 100
        · simp [catGo, hp, hempty, hshort, catEntriesAt]
        · have hstep : catGo unescape responses sid filter page acc (fuel + 1)
              = (page :: (catGo unescape responses sid filter (page + 1)
                  (acc ++ data.filterMap (fun c =>
                    if skipsEntry filter (unescape c.name) then none
                    else some (mkCategoryRow unescape sid c))) fuel).1,
                (catGo unescape responses sid filter (page + 1)
                  (acc ++ data.filterMap (fun c =>
                    if skipsEntry filter (unescape c.name) then none
                    else some (mkCategoryRow unescape sid c))) fuel).2) := by
            simp [catGo, hp, hempty, hshort]
          rw [hstep]
          show (catGo unescape responses sid filter (page + 1) _ fuel).2 = _
          rw [ih (page + 1)]
          have hfirst : catEntriesAt responses page = data := by
            simp [catEntriesAt, hp]
          simp [hfirst, List.filterMap_append, List.append_assoc]

/-! ## Theorems about the category extractor -/

/-- One short first page with one entry named Shoes. -/
def respC7 : Nat → CatResp :=
  fun p => if p = 1 then .page [⟨7, "Shoes", "shoes"⟩] else .page []

/-- A store whose `category_filter` is present but denotes the empty set. -/
def storeC7empty : WooStore := ⟨3, some []⟩

/-- A store filtering on the name Shoes. -/
def storeC7shoes : WooStore := ⟨3, some ["Shoes"]⟩

/-- A store with no filter at all. -/
def storeC7none : WooStore := ⟨3, none⟩

/-- Counterexample to C7 as stated: with a defined-but-empty
`category_filter` the truthiness test `if category_filter and ...` is
false, so an entry whose decoded name is a member of nothing is kept
anyway — "kept iff member" fails for this defined filter. -/
theorem extract_categories_empty_filter_counterexample :
    storeC7empty.category_filter = some [] ∧
    (extract_categories (fun s => s) respC7 storeC7empty 5).2
      = [⟨3, "7", "Shoes", "shoes"⟩] ∧
    ¬ ("Shoes" ∈ ([] : List String)) := by decide

/-- C7 as amended: pages are requested with fixed size 100 counting up
from page 1, stopping after the first short page; with a defined
*non-empty* filter an entry is kept iff its decoded name is a member,
and with an absent or empty filter every entry is kept. -/
theorem extract_categories_spec (unescape : String → String)
    (responses : Nat → CatResp) (store : WooStore) (fuel : Nat) :
    ((extract_categories unescape responses store fuel).1
      = (List.range
          (extract_categories unescape responses store fuel).1.length).map
        (fun i => 1 + i))
    ∧ (∀ i, i + 1 <
          (extract_categories unescape responses store fuel).1.length →
        ∃ data, responses (1 + i) = .page data ∧ 100 ≤ data.length)
    ∧ (∀ f, store.category_filter = some f → f ≠ [] →
        (extract_categories unescape responses store fuel).2
          = (((extract_categories unescape responses store fuel).1.map
              (catEntriesAt responses)).flatten).filterMap
            (fun c => if f.contains (unescape c.name) then
                some (mkCategoryRow unescape store.store_id c)
              else none))
    ∧ ((store.category_filter = none ∨ store.category_filter = some []) →
        (extract_categories unescape responses store fuel).2
          = (((extract_categories unescape responses store fuel).1.map
              (catEntriesAt responses)).flatten).map
            (mkCategoryRow unescape store.store_id)) := by
  refine ⟨?_, ?_, ?_, ?_⟩
  · obtain ⟨n, hn⟩ := catGo_fst_shape unescape responses store.store_id
      (getCategoryFilter store) fuel 1 []
    have hn' : (extract_categories unescape responses store fuel).1
        = (List.range n).map (fun i => 1 + i) := hn
    rw [hn']
    simp
  · intro i h
    exact catGo_continues unescape responses store.store_id
      (getCategoryFilter store) fuel 1 [] i h
  · intro f hf hne
    have hie : f.isEmpty = false := by
      cases f with
      | nil => exact absurd rfl hne
      | cons a f' => rfl
    have hfilter : getCategoryFilter store = some f := by
      simp [getCategoryFilter, hf, hie]
    have hx : extract_categories unescape responses store fuel
        = catGo unescape responses store.store_id (some f) 1 [] fuel := by
      unfold extract_categories
      rw [hfilter]
    have hpayload := catGo_payload unescape responses store.store_id
      (some f) fuel 1 []
    have hfn : (fun c => if skipsEntry (some f) (unescape c.name) then
          (none : Option CategoryRow)
        else some (mkCategoryRow unescape store.store_id c))
        = fun c => if f.contains (unescape c.name) then
            some (mkCategoryRow unescape store.store_id c)
          else none := by
      funext c
      by_cases hc : f.contains (unescape c.name) = true <;>
        simp [skipsEntry, hie, hc]
    rw [hx, hpayload, hfn]
    simp
  · intro hf
    have hfilter : getCategoryFilter store = none := by
      rcases hf with h | h <;> simp [getCategoryFilter, h]
    have hx : extract_categories unescape responses store fuel
        = catGo unescape responses store.store_id none 1 [] fuel := by
      unfold extract_categories
      rw [hfilter]
    have hpayload := catGo_payload unescape responses store.store_id
      none fuel 1 []
    have hfn : (fun c => if skipsEntry none (unescape c.name) then
          (none : Option CategoryRow)
        else some (mkCategoryRow unescape store.store_id c))
        = some ∘ mkCategoryRow unescape store.store_id := by
      funext c
      simp [skipsEntry, Function.comp]
    rw [hx, hpayload, hfn, List.filterMap_eq_map]
    simp

/-- Witness for the amended C7: the Shoes filter keeps the entry; the
filterless store keeps everything. -/
theorem extract_categories_spec_witness :
    ((extract_categories (fun s => s) respC7 storeC7shoes 5).2
      = (((extract_categories (fun s => s) respC7 storeC7shoes 5).1.map
          (catEntriesAt respC7)).flatten).filterMap
        (fun c => if ["Shoes"].contains ((fun s => s) c.name) then
            some (mkCategoryRow (fun s => s) storeC7shoes.store_id c)
          else none))
    ∧ ((extract_categories (fun s => s) respC7 storeC7none 5).2
      = (((extract_categories (fun s => s) respC7 storeC7none 5).1.map
          (catEntriesAt respC7)).flatten).map
        (mkCategoryRow (fun s => s) storeC7none.store_id)) :=
  ⟨(extract_categories_spec (fun s => s) respC7 storeC7shoes 5).2.2.1
      ["Shoes"] (by decide) (by decide),
   (extract_categories_spec (fun s => s) respC7 storeC7none 5).2.2.2
      (Or.inl (by decide))⟩

/-! ## Theorems about the token scraper -/

/-- A token assignment of the regex's shape occurring somewhere in `s`,
binding the capture `tok`: the keyword literals up to letter case, at
least one whitespace between them, optional whitespace around the equals
sign, a quote, one or more hex-class characters, a quote. -/
def tokenAssignOf (s tok : List Char) : Prop :=
  ∃ (pre v ws1 w ws2 ws3 rest : List Char) (q1 q2 : Char),
    s = pre ++ v ++ ws1 ++ w ++ ws2 ++ ['='] ++ ws3 ++ [q1] ++ tok
      ++ [q2] ++ rest
    ∧ v.map Char.toLower = "var".data
    ∧ ws1 ≠ [] ∧ (∀ c ∈ ws1, pyWS c)
    ∧ w.map Char.toLower = "web_token".data
    ∧ (∀ c ∈ ws2, pyWS c) ∧ (∀ c ∈ ws3, pyWS c)
    ∧ isQuote q1 ∧ tok ≠ [] ∧ (∀ c ∈ tok, isHexIC c) ∧ isQuote q2

theorem matchLit_sound : ∀ lit s r : List Char, matchLit lit s = some r →
    ∃ pre, s = pre ++ r ∧ pre.map Char.toLower = lit.map Char.toLower := by
  intro lit
  induction lit with
  | nil =>
    intro s r h
    simp [matchLit] at h
    exact ⟨[], by simp [h], by simp⟩
  | cons l ls ih =>
    intro s r h
    cases s with
    | nil => simp [matchLit] at h
    | cons c cs =>
      simp only [matchLit] at h
      by_cases hc : c.toLower = l.toLower
      · rw [if_pos hc] at h
        obtain ⟨pre, h1, h2⟩ := ih cs r h
        exact ⟨c :: pre, by simp [h1], by simp [h2, hc]⟩
      · rw [if_neg hc] at h
        cases h

/-- A successful anchored match decomposes the text into the declarative
assignment shape with no preceding characters. -/
theorem matchTokenAt_sound (s tok : List Char) :
    matchTokenAt s = some tok →
    ∃ (v ws1 w ws2 ws3 rest : List Char) (q1 q2 : Char),
      s = v ++ ws1 ++ w ++ ws2 ++ ['='] ++ ws3 ++ [q1] ++ tok
        ++ [q2] ++ rest
      ∧ v.map Char.toLower = "var".data
      ∧ ws1 ≠ [] ∧ (∀ c ∈ ws1, pyWS c)
      ∧ w.map Char.toLower = "web_token".data
      ∧ (∀ c ∈ ws2, pyWS c) ∧ (∀ c ∈ ws3, pyWS c)
      ∧ isQuote q1 ∧ tok ≠ [] ∧ (∀ c ∈ tok, isHexIC c) ∧ isQuote q2 := by
  intro h
  unfold matchTokenAt at h
  rcases h1 : matchLit "var".data s with _ | s1
  · rw [h1] at h; cases h
  rw [h1] at h
  obtain ⟨v, hs, hv⟩ := matchLit_sound "var".data s s1 h1
  have hv' : v.map Char.toLower = "var".data := by
    rw [hv]; decide
  cases s1 with
  | nil => cases h
  | cons c rest =>
    simp only at h
    by_cases hws : pyWS c = true
    · rw [if_pos hws] at h
      rcases h2 : matchLit "web_token".data (rest.dropWhile pyWS)
          with _ | s3
      · rw [h2] at h; cases h
      rw [h2] at h
      simp only at h
      obtain ⟨w, hw1, hw2⟩ := matchLit_sound _ _ _ h2
      have hw2' : w.map Char.toLower = "web_token".data := by
        rw [hw2]; decide
      rcases h3 : s3.dropWhile pyWS with _ | ⟨e, s5⟩
      · rw [h3] at h; cases h
      rw [h3] at h
      simp only at h
      by_cases he : e = '='
      · rw [if_pos he] at h
        rcases h4 : s5.dropWhile pyWS with _ | ⟨q, s7⟩
        · rw [h4] at h; cases h
        rw [h4] at h
        simp only at h
        by_cases hq : isQuote q = true
        · rw [if_pos hq] at h
          rcases h5 : s7.takeWhile isHexIC with _ | ⟨tc, tks⟩
          · rcases h6 : s7.dropWhile isHexIC with _ | ⟨q2, rest2⟩
            · rw [h5, h6] at h; cases h
            · rw [h5, h6] at h; cases h
          rcases h6 : s7.dropWhile isHexIC with _ | ⟨q2, rest2⟩
          · rw [h5, h6] at h; cases h
          rw [h5, h6] at h
          simp only at h
          by_cases hq2 : isQuote q2 = true
          · rw [if_pos hq2] at h
            simp only [Option.some.injEq] at h
            subst h
            subst he
            have hrest2 : rest = rest.takeWhile pyWS ++ (w ++ s3) := by
              conv_lhs => rw [← List.takeWhile_append_dropWhile
                (p := pyWS) (l := rest)]
              rw [hw1]
            have hs3 : s3 = s3.takeWhile pyWS ++ ('=' :: s5) := by
              conv_lhs => rw [← List.takeWhile_append_dropWhile
                (p := pyWS) (l := s3)]
              rw [h3]
            have hs5 : s5 = s5.takeWhile pyWS ++ (q :: s7) := by
              conv_lhs => rw [← List.takeWhile_append_dropWhile
                (p := pyWS) (l := s5)]
              rw [h4]
            have hs7 : s7 = (tc :: tks) ++ (q2 :: rest2) := by
              conv_lhs => rw [← List.takeWhile_append_dropWhile
                (p := isHexIC) (l := s7)]
              rw [h5, h6]
            refine ⟨v, c :: rest.takeWhile pyWS, w, s3.takeWhile pyWS,
              s5.takeWhile pyWS, rest2, q, q2, ?_, hv', by simp,
              ?_, hw2', ?_, ?_, hq, by simp, ?_, hq2⟩
            · calc s = v ++ c :: rest := hs
                _ = v ++ c :: (rest.takeWhile pyWS ++ (w ++ s3)) := by
                    conv_lhs => rw [hrest2]
                _ = v ++ c :: (rest.takeWhile pyWS ++ (w
                      ++ (s3.takeWhile pyWS ++ ('=' :: s5)))) := by
                    conv_lhs => rw [hs3]
                _ = v ++ c :: (rest.takeWhile pyWS ++ (w
                      ++ (s3.takeWhile pyWS ++ ('=' :: (s5.takeWhile pyWS
                        ++ (q :: s7)))))) := by
                    conv_lhs => rw [hs5]
                _ = v ++ c :: (rest.takeWhile pyWS ++ (w
                      ++ (s3.takeWhile pyWS ++ ('=' :: (s5.takeWhile pyWS
                        ++ (q :: ((tc :: tks) ++ (q2 :: rest2)))))))) := by
                    conv_lhs => rw [hs7]
                _ = v ++ (c :: rest.takeWhile pyWS) ++ w
                      ++ s3.takeWhile pyWS ++ ['='] ++ s5.takeWhile pyWS
                      ++ [q] ++ (tc :: tks) ++ [q2] ++ rest2 := by
                    simp [List.append_assoc]
            · intro x hx
              rcases List.mem_cons.mp hx with rfl | hx'
              · exact hws
              · exact List.mem_takeWhile_imp hx'
            · intro x hx
              exact List.mem_takeWhile_imp hx
            · intro x hx
              exact List.mem_takeWhile_imp hx
            · intro x hx
              refine List.mem_takeWhile_imp (p := isHexIC) (l := s7) ?_
              rw [h5]
              exact hx
          · rw [if_neg hq2] at h; cases h
        · rw [if_neg hq] at h; cases h
      · rw [if_neg he] at h; cases h
    · rw [if_neg hws] at h; cases h

/-- Whatever `re.search` returns was bound by a token assignment somewhere
in the text. -/
theorem searchToken_sound : ∀ s tok : List Char,
    searchToken s = some tok → tokenAssignOf s tok := by
  intro s
  induction s with
  | nil => intro tok h; cases h
  | cons c cs ih =>
    intro tok h
    unfold searchToken at h
    rcases hm : matchTokenAt (c :: cs) with _ | tok'
    · rw [hm] at h
      simp only at h
      obtain ⟨pre, v, ws1, w, ws2, ws3, rest, q1, q2, heq, hrest⟩ := ih tok h
      exact ⟨c :: pre, v, ws1, w, ws2, ws3, rest, q1, q2,
        by rw [heq]; simp [List.append_assoc], hrest⟩
    · rw [hm] at h
      simp only [Option.some.injEq] at h
      subst h
      obtain ⟨v, ws1, w, ws2, ws3, rest, q1, q2, heq, hrest⟩ :=
        matchTokenAt_sound (c :: cs) tok' hm
      exact ⟨[], v, ws1, w, ws2, ws3, rest, q1, q2, by simpa using heq, hrest⟩

/-- The homepage containing the spec's example assignment. -/
def bodyC6 : String :=
  "<html><script>var web_token = \"a1b2c3\"; if (x) load();</script></html>"

/-- A homepage with two assignments; the first one wins. -/
def bodyC6two : String :=
  "var web_token = \"aa11\"; var web_token = \"bb22\";"

/-- Keyword case and quote style vary; the capture keeps its case. -/
def bodyC6upper : String := "VAR\tWEB_TOKEN='ABC123'"

/-! ## Completeness of the token matcher (leftmost-match support) -/

/-- A token assignment whose match starts at the head of `s`. -/
def tokenAssignHead (s tok : List Char) : Prop :=
  ∃ (v ws1 w ws2 ws3 rest : List Char) (q1 q2 : Char),
    s = v ++ ws1 ++ w ++ ws2 ++ ['='] ++ ws3 ++ [q1] ++ tok
      ++ [q2] ++ rest
    ∧ v.map Char.toLower = "var".data
    ∧ ws1 ≠ [] ∧ (∀ c ∈ ws1, pyWS c)
    ∧ w.map Char.toLower = "web_token".data
    ∧ (∀ c ∈ ws2, pyWS c) ∧ (∀ c ∈ ws3, pyWS c)
    ∧ isQuote q1 ∧ tok ≠ [] ∧ (∀ c ∈ tok, isHexIC c) ∧ isQuote q2

theorem matchLit_complete : ∀ lit v rest : List Char,
    v.map Char.toLower = lit.map Char.toLower →
    matchLit lit (v ++ rest) = some rest := by
  intro lit
  induction lit with
  | nil =>
    intro v rest h
    have hv : v = [] := by
      cases v with
      | nil => rfl
      | cons a v' => simp at h
    subst hv
    rfl
  | cons l ls ih =>
    intro v rest h
    cases v with
    | nil => simp at h
    | cons a v' =>
      simp only [List.map_cons, List.cons.injEq] at h
      show matchLit (l :: ls) (a :: (v' ++ rest)) = some rest
      simp only [matchLit, h.1, if_pos]
      exact ih v' rest h.2

theorem dropWhile_append_of_all (p : Char → Bool) :
    ∀ ws rest : List Char, (∀ c ∈ ws, p c = true) →
      (ws ++ rest).dropWhile p = rest.dropWhile p := by
  intro ws
  induction ws with
  | nil => intro rest _; rfl
  | cons a ws' ih =>
    intro rest h
    have ha : p a = true := h a (List.mem_cons_self a ws')
    show ((a :: (ws' ++ rest)).dropWhile p) = _
    rw [List.dropWhile_cons]
    simp only [ha, if_true, ite_true]
    exact ih rest (fun c hc => h c (List.mem_cons_of_mem a hc))

theorem dropWhile_cons_of_neg (p : Char → Bool) (c : Char)
    (cs : List Char) (hc : p c = false) :
    (c :: cs).dropWhile p = c :: cs := by
  rw [List.dropWhile_cons]
  simp [hc]

theorem takeWhile_all_append (p : Char → Bool) :
    ∀ (tok : List Char) (q : Char) (rest : List Char),
      (∀ c ∈ tok, p c = true) → p q = false →
      (tok ++ q :: rest).takeWhile p = tok ∧
      (tok ++ q :: rest).dropWhile p = q :: rest := by
  intro tok
  induction tok with
  | nil =>
    intro q rest _ hq
    constructor
    · show List.takeWhile p (q :: rest) = []
      rw [List.takeWhile_cons]
      simp [hq]
    · show List.dropWhile p (q :: rest) = q :: rest
      exact dropWhile_cons_of_neg p q rest hq
  | cons a tok' ih =>
    intro q rest h hq
    have ha : p a = true := h a (List.mem_cons_self a tok')
    have htail := ih q rest (fun c hc => h c (List.mem_cons_of_mem a hc)) hq
    constructor
    · show ((a :: (tok' ++ q :: rest)).takeWhile p) = _
      rw [List.takeWhile_cons]
      simp only [ha, if_true, ite_true]
      rw [htail.1]
    · show ((a :: (tok' ++ q :: rest)).dropWhile p) = _
      rw [List.dropWhile_cons]
      simp only [ha, if_true, ite_true]
      exact htail.2

theorem pyWS_of_toLower_w (c : Char) (h : c.toLower = 'w') :
    pyWS c = false := by
  by_contra hc
  have hc' : pyWS c = true := by
    cases hpc : pyWS c
    · exact absurd hpc hc
    · rfl
  simp only [pyWS, Bool.or_eq_true, decide_eq_true_eq] at hc'
  rcases hc' with ((((h1 | h1) | h1) | h1) | h1) | h1 <;>
    (subst h1; exact absurd h (by decide))

theorem pyWS_of_isQuote (q : Char) (h : isQuote q = true) :
    pyWS q = false := by
  simp only [isQuote, Bool.or_eq_true, decide_eq_true_eq] at h
  rcases h with h | h <;> (subst h; decide)

theorem isHexIC_of_isQuote (q : Char) (h : isQuote q = true) :
    isHexIC q = false := by
  simp only [isQuote, Bool.or_eq_true, decide_eq_true_eq] at h
  rcases h with h | h <;> (subst h; decide)

/-- A cons-shaped restatement of literal-matching completeness. -/
theorem matchLit_complete_cons (lit : List Char) (wh : Char)
    (wt rest : List Char)
    (h : (wh :: wt).map Char.toLower = lit.map Char.toLower) :
    matchLit lit (wh :: (wt ++ rest)) = some rest := by
  have hfull := matchLit_complete lit (wh :: wt) rest h
  rw [List.cons_append] at hfull
  exact hfull

/-- The anchored matcher finds every head-anchored assignment: each greedy
repetition in the pattern is followed by a literal outside its character
class, so maximal munching is exact. -/
theorem matchTokenAt_complete (s tok : List Char)
    (h : tokenAssignHead s tok) : matchTokenAt s = some tok := by
  obtain ⟨v, ws1, w, ws2, ws3, rest, q1, q2, heq, hv, hws1ne, hws1, hw,
    hws2, hws3, hq1, htokne, htok, hq2⟩ := h
  subst heq
  have hv' : v.map Char.toLower = "var".data.map Char.toLower := by
    rw [hv]; decide
  rcases ws1 with _ | ⟨c, ws1'⟩
  · exact absurd rfl hws1ne
  rcases w with _ | ⟨wh, wt⟩
  · simp at hw
  have hwh : wh.toLower = 'w' := by
    simp only [List.map_cons] at hw
    have hhd := List.head_eq_of_cons_eq hw
    simpa using hhd
  have hc : pyWS c = true := hws1 c (List.mem_cons_self c ws1')
  have hwhws : pyWS wh = false := pyWS_of_toLower_w wh hwh
  unfold matchTokenAt
  simp only [List.append_assoc, List.cons_append, List.nil_append]
  rw [matchLit_complete "var".data v _ hv']
  simp only
  rw [if_pos hc]
  rw [dropWhile_append_of_all pyWS ws1' _
    (fun x hx => hws1 x (List.mem_cons_of_mem c hx))]
  rw [dropWhile_cons_of_neg pyWS wh _ hwhws]
  rw [matchLit_complete_cons "web_token".data wh wt _ (by rw [hw]; decide)]
  simp only
  rw [dropWhile_append_of_all pyWS ws2 _ hws2]
  rw [dropWhile_cons_of_neg pyWS '=' _ (by decide)]
  simp only
  simp only [if_true, ite_true]
  rw [dropWhile_append_of_all pyWS ws3 _ hws3]
  rw [dropWhile_cons_of_neg pyWS q1 _ (pyWS_of_isQuote q1 hq1)]
  simp only
  rw [if_pos hq1]
  rw [(takeWhile_all_append isHexIC tok q2 rest htok
    (isHexIC_of_isQuote q2 hq2)).1]
  rw [(takeWhile_all_append isHexIC tok q2 rest htok
    (isHexIC_of_isQuote q2 hq2)).2]
  rcases tok with _ | ⟨tc, tks⟩
  · exact absurd rfl htokne
  simp only
  rw [if_pos hq2]

/-- `re.search` scans positions left to right: when an assignment matches
at one position and none matches at any earlier position, the search
returns that assignment's capture. -/
theorem searchToken_first : ∀ pre suf tok : List Char,
    tokenAssignHead suf tok →
    (∀ i, i < pre.length →
      ∀ tok', ¬ tokenAssignHead ((pre ++ suf).drop i) tok') →
    searchToken (pre ++ suf) = some tok := by
  intro pre
  induction pre with
  | nil =>
    intro suf tok hhead _
    rcases suf with _ | ⟨c, cs⟩
    · exfalso
      obtain ⟨v, ws1, w, ws2, ws3, rest, q1, q2, heq, hv, hrest⟩ := hhead
      have hlen := congrArg List.length heq
      have hvlen : v.length = 3 := by
        have hl := congrArg List.length hv
        simpa using hl
      simp [List.length_append, hvlen] at hlen
      omega
    · show searchToken (c :: cs) = some tok
      unfold searchToken
      rw [matchTokenAt_complete (c :: cs) tok (by simpa using hhead)]
  | cons a pre' ih =>
    intro suf tok hhead hno
    show searchToken (a :: (pre' ++ suf)) = some tok
    unfold searchToken
    rcases hm : matchTokenAt (a :: (pre' ++ suf)) with _ | t0
    · simp only
      refine ih suf tok hhead ?_
      intro i hi tok' hx
      have hdrop : ((a :: pre') ++ suf).drop (i + 1)
          = (pre' ++ suf).drop i := by
        simp [List.drop_succ_cons]
      refine hno (i + 1) (by simpa using Nat.succ_lt_succ hi) tok' ?_
      rw [hdrop]
      exact hx
    · exfalso
      have hassign := matchTokenAt_sound _ t0 hm
      have hdrop0 : ((a :: pre') ++ suf).drop 0 = a :: (pre' ++ suf) := by
        simp
      refine hno 0 (by simp) t0 ?_
      rw [hdrop0]
      exact hassign

/-- Criterion C6: the token acquirer returns the capture of the *first*
token assignment when one exists (soundness: any returned value is the
capture of an assignment of the pattern's shape; leftmostness: the
earliest-starting assignment wins — plus the spec's concrete examples),
and returns nothing when the request failed, an error status came back,
or the body has no assignment of the pattern's shape. -/
theorem extract_token_spec :
    (extract_token .requestError = none)
    ∧ (∀ status body, (∀ tok, ¬ tokenAssignOf body.data tok) →
        extract_token (.response status body) = none)
    ∧ (∀ status body t, extract_token (.response status body) = some t →
        tokenAssignOf body.data t.data)
    ∧ extract_token (.response 200 bodyC6) = some "a1b2c3"
    ∧ extract_token (.response 200 bodyC6two) = some "aa11"
    ∧ extract_token (.response 200 bodyC6upper) = some "ABC123"
    ∧ extract_token (.response 200 "no assignment here") = none
    ∧ (∀ status body (pre suf tok : List Char),
        raisesForStatus status = false →
        body.data = pre ++ suf → tokenAssignHead suf tok →
        (∀ i, i < pre.length →
          ∀ tok', ¬ tokenAssignHead (body.data.drop i) tok') →
        extract_token (.response status body) = some (String.mk tok)) := by
  refine ⟨rfl, ?_, ?_, by decide, by decide, by decide, by decide, ?_⟩
  · intro status body hno
    show (if raisesForStatus status = true then none
      else match searchToken body.data with
        | some tk => some (String.mk tk)
        | none => none) = (none : Option String)
    by_cases hrs : raisesForStatus status = true
    · rw [if_pos hrs]
    · rw [if_neg hrs]
      rcases hsearch : searchToken body.data with _ | tk
      · rfl
      · exact absurd (searchToken_sound body.data tk hsearch) (hno tk)
  · intro status body t h
    have h' : (if raisesForStatus status = true then none
        else match searchToken body.data with
          | some tk => some (String.mk tk)
          | none => none) = some t := h
    by_cases hrs : raisesForStatus status = true
    · rw [if_pos hrs] at h'; cases h'
    · rw [if_neg hrs] at h'
      rcases hsearch : searchToken body.data with _ | tk
      · rw [hsearch] at h'; cases h'
      · rw [hsearch] at h'
        simp only [Option.some.injEq] at h'
        have ht : t.data = tk := by rw [← h']
        rw [ht]
        exact searchToken_sound body.data tk hsearch
  · intro status body pre suf tok hrs hbody hhead hno
    have hno' : ∀ i, i < pre.length →
        ∀ tok', ¬ tokenAssignHead ((pre ++ suf).drop i) tok' := by
      intro i hi tok'
      have hx := hno i hi tok'
      rw [hbody] at hx
      exact hx
    have hsearch : searchToken body.data = some tok := by
      rw [hbody]
      exact searchToken_first pre suf tok hhead hno'
    have hgoal : (if raisesForStatus status = true then none
        else match searchToken body.data with
          | some tk => some (String.mk tk)
          | none => none) = some (String.mk tok) := by
      rw [if_neg (by simp [hrs]), hsearch]
    exact hgoal

/-- Witness for C6: the example body's capture really occurs as an
assignment, and an assignment-free body yields nothing. -/
theorem extract_token_spec_witness :
    tokenAssignOf bodyC6.data ("a1b2c3".data)
    ∧ extract_token (.response 200 "xy") = none := by
  constructor
  · exact extract_token_spec.2.2.1 200 bodyC6 "a1b2c3" (by decide)
  · refine extract_token_spec.2.1 200 "xy" ?_
    intro tok hassign
    obtain ⟨pre, v, ws1, w, ws2, ws3, rest, q1, q2, heq, hv, hrest⟩ :=
      hassign
    have hlen := congrArg List.length heq
    have hvlen : v.length = 3 := by
      have hl := congrArg List.length hv
      simpa using hl
    simp [List.length_append, hvlen] at hlen
    omega
